import Mathlib

/-!
Shallow embedding of the Solana indexer (data_analyzer, data_loader,
rewards_analyzer services) and proofs about its specification claims.

Conventions:
* Rust `u8`/`u16`/`u64` values are modelled as `Nat` with explicit `% 2^w`
  wherever the source performs machine arithmetic that can overflow
  (release-profile wrapping semantics).
* Fallible Rust code (`Result`) is modelled with `Except`; Rust panics
  (`unwrap`, out-of-bounds indexing, debug-mode arithmetic overflow) are
  modelled with an outer `Option` (`none` = panic).
* External library calls with complex black-box behaviour (the per-program
  binary instruction decoders, `serde_json` field extraction) are taken as
  explicit function parameters; every branch and arithmetic step of the
  repository's own code is translated directly.
-/

namespace SolanaIndexer

/-- `data_analyzer/src/storages/main_storage/mod.rs`: `ACCOUNTS_ARRAY_SIZE`. -/
def ACCOUNTS_ARRAY_SIZE : Nat := 256

/-- `TxStatus` from `main_storage/mod.rs`. -/
inductive TxStatus
  | Failed
  | Success
  | Undefined
deriving DecidableEq, Repr

/-- `Instruction` row from `main_storage/mod.rs`.  `instruction_idx`,
`inner_instructions_set` and `transaction_instruction_idx` are `u8` in the
source; `slot` and `block_time` are `u64`. -/
structure Instruction where
  program : String
  tx_signature : String
  tx_status : TxStatus
  slot : Nat
  block_time : Nat
  instruction_idx : Nat
  inner_instructions_set : Option Nat
  transaction_instruction_idx : Option Nat
  instruction_name : String
  accounts : List (Option String)
  data : String
deriving DecidableEq, Repr

/-- `Instruction::get_raw_instruction_idx`.  The source computes in `u16`:
`instruction_idx * 256` for outer instructions and
`(transaction_instruction_idx * 256 + instruction_idx) + 1` for inner ones;
the `% 65536` mirrors `u16` wrapping. -/
def Instruction.get_raw_instruction_idx (i : Instruction) : Nat :=
  match i.transaction_instruction_idx with
  | none => i.instruction_idx * 256 % 65536
  | some t => ((t * 256 + i.instruction_idx) % 65536 + 1) % 65536

/-- The comparison key used by `impl Ord for Instruction`: slot first, then
the raw instruction index. -/
def Instruction.key (i : Instruction) : Nat × Nat :=
  (i.slot, i.get_raw_instruction_idx)

/-- `impl Ord for Instruction` (`cmp`): compare `slot`, then
`get_raw_instruction_idx`. -/
def Instruction.cmp (a b : Instruction) : Ordering :=
  match compare a.slot b.slot with
  | .eq => compare a.get_raw_instruction_idx b.get_raw_instruction_idx
  | o => o

/-- `impl PartialEq for Instruction`: `self.cmp(other) == Ordering::Equal`. -/
def Instruction.peq (a b : Instruction) : Bool :=
  a.cmp b == .eq

/-- Strict key order on instructions (what `Ordering::Less` denotes). -/
def Instruction.klt (a b : Instruction) : Bool :=
  a.cmp b == .lt

/-- Model of `BTreeSet<Instruction>::insert`: the set is kept as a list
sorted strictly by `Instruction.cmp`; inserting an element whose key is
already present leaves the set unchanged (Rust's `BTreeSet::insert` keeps
the old element). -/
def insertBTree (x : Instruction) : List Instruction → List Instruction
  | [] => [x]
  | y :: ys =>
    if x.klt y then x :: y :: ys
    else if x.peq y then y :: ys
    else y :: insertBTree x ys

/-- Lexicographic order on `(slot, raw_instruction_idx)` keys. -/
def keyLt (a b : Nat × Nat) : Prop :=
  a.1 < b.1 ∨ (a.1 = b.1 ∧ a.2 < b.2)

instance (a b : Nat × Nat) : Decidable (keyLt a b) := by
  unfold keyLt; infer_instance

theorem keyLt_irrefl (a : Nat × Nat) : ¬ keyLt a a := by
  unfold keyLt; omega

theorem keyLt_trans {a b c : Nat × Nat} (h1 : keyLt a b) (h2 : keyLt b c) :
    keyLt a c := by
  unfold keyLt at *; omega

theorem keyLt_trichotomy (a b : Nat × Nat) :
    keyLt a b ∨ a = b ∨ keyLt b a := by
  unfold keyLt
  rcases a with ⟨a1, a2⟩
  rcases b with ⟨b1, b2⟩
  simp only [Prod.mk.injEq]
  omega

theorem ordering_beq_iff (o p : Ordering) : (o == p) = true ↔ o = p := by
  cases o <;> cases p <;> decide

theorem Instruction.peq_iff (a b : Instruction) :
    a.peq b = true ↔ a.key = b.key := by
  unfold Instruction.peq Instruction.cmp Instruction.key
  rcases h : compare a.slot b.slot with _ | _ | _
  · have hs := Nat.compare_eq_lt.mp h
    simp only [h, Prod.mk.injEq, ordering_beq_iff]
    constructor
    · intro hc; cases hc
    · rintro ⟨h1, -⟩; omega
  · have hs := Nat.compare_eq_eq.mp h
    simp only [h, Prod.mk.injEq, ordering_beq_iff]
    constructor
    · intro hc
      exact ⟨hs, Nat.compare_eq_eq.mp hc⟩
    · rintro ⟨-, h2⟩
      exact Nat.compare_eq_eq.mpr h2
  · have hs := Nat.compare_eq_gt.mp h
    simp only [h, Prod.mk.injEq, ordering_beq_iff]
    constructor
    · intro hc; cases hc
    · rintro ⟨h1, -⟩; omega

theorem Instruction.klt_iff (a b : Instruction) :
    a.klt b = true ↔ keyLt a.key b.key := by
  unfold Instruction.klt Instruction.cmp Instruction.key keyLt
  rcases h : compare a.slot b.slot with _ | _ | _
  · have hs := Nat.compare_eq_lt.mp h
    simp only [h, ordering_beq_iff]
    constructor
    · intro _; exact Or.inl hs
    · intro _; trivial
  · have hs := Nat.compare_eq_eq.mp h
    simp only [h, ordering_beq_iff]
    constructor
    · intro hc
      exact Or.inr ⟨hs, Nat.compare_eq_lt.mp hc⟩
    · rintro (hc | ⟨-, hc⟩)
      · omega
      · exact Nat.compare_eq_lt.mpr hc
  · have hs := Nat.compare_eq_gt.mp h
    simp only [h, ordering_beq_iff]
    constructor
    · intro hc; cases hc
    · rintro (hc | ⟨hc, -⟩) <;> omega

/-- Keys present in a set. -/
def keysOf (l : List Instruction) : List (Nat × Nat) := l.map Instruction.key

theorem keysOf_insertBTree (x : Instruction) (l : List Instruction) :
    ∀ k, k ∈ keysOf (insertBTree x l) ↔ k = x.key ∨ k ∈ keysOf l := by
  induction l with
  | nil => intro k; simp [insertBTree, keysOf]
  | cons y ys ih =>
    intro k
    unfold insertBTree
    by_cases h1 : x.klt y
    · simp [h1, keysOf]
    · by_cases h2 : x.peq y
      · have hk : x.key = y.key := (Instruction.peq_iff x y).mp h2
        simp only [h1, h2, if_false, if_true, Bool.false_eq_true]
        simp only [keysOf, List.map_cons, List.mem_cons]
        rw [hk]
        tauto
      · simp only [h1, h2, if_false, Bool.false_eq_true]
        simp only [keysOf, List.map_cons, List.mem_cons] at *
        rw [ih k]
        tauto

/-- Strict key sortedness: the invariant maintained by `insertBTree`
(mirroring the `BTreeSet` ordering by `Instruction.cmp`). -/
def SortedKeys (l : List Instruction) : Prop :=
  l.Pairwise (fun a b => keyLt a.key b.key)

theorem sortedKeys_insertBTree (x : Instruction) (l : List Instruction)
    (hs : SortedKeys l) : SortedKeys (insertBTree x l) := by
  induction l with
  | nil => simp [insertBTree, SortedKeys]
  | cons y ys ih =>
    unfold SortedKeys at hs
    rw [List.pairwise_cons] at hs
    obtain ⟨hy, hys⟩ := hs
    unfold insertBTree
    by_cases h1 : x.klt y
    · have hlt := (Instruction.klt_iff x y).mp h1
      simp only [h1, if_true]
      unfold SortedKeys
      rw [List.pairwise_cons]
      constructor
      · intro z hz
        rcases List.mem_cons.mp hz with rfl | hz'
        · exact hlt
        · exact keyLt_trans hlt (hy z hz')
      · rw [List.pairwise_cons]; exact ⟨hy, hys⟩
    · by_cases h2 : x.peq y
      · simp only [h1, h2, if_false, if_true, Bool.false_eq_true]
        unfold SortedKeys
        rw [List.pairwise_cons]
        exact ⟨hy, hys⟩
      · simp only [h1, h2, if_false, Bool.false_eq_true]
        unfold SortedKeys
        rw [List.pairwise_cons]
        constructor
        · intro z hz
          rcases (keysOf_insertBTree x ys z.key).mp
              (List.mem_map_of_mem Instruction.key hz) with hk | hk
          · -- z has the key of x: keyLt y.key x.key since neither lt nor eq
            have hnlt : ¬ keyLt x.key y.key := fun hc =>
              h1 ((Instruction.klt_iff x y).mpr hc)
            have hne : x.key ≠ y.key := fun hc =>
              h2 ((Instruction.peq_iff x y).mpr hc)
            have hyx : keyLt y.key x.key := by
              rcases keyLt_trichotomy x.key y.key with h | h | h
              · exact absurd h hnlt
              · exact absurd h hne
              · exact h
            rw [hk]; exact hyx
          · obtain ⟨w, hw, hwk⟩ := List.mem_map.mp hk
            rw [← hwk]
            exact hy w hw
        · exact ih hys

theorem length_insertBTree_of_mem (x : Instruction) (l : List Instruction)
    (hs : SortedKeys l) (h : x.key ∈ keysOf l) :
    (insertBTree x l).length = l.length := by
  induction l with
  | nil => simp [keysOf] at h
  | cons y ys ih =>
    unfold SortedKeys at hs
    rw [List.pairwise_cons] at hs
    obtain ⟨hy, hys⟩ := hs
    unfold insertBTree
    by_cases h1 : x.klt y
    · exfalso
      have hlt := (Instruction.klt_iff x y).mp h1
      simp only [keysOf, List.map_cons, List.mem_cons] at h
      rcases h with h | h
      · rw [h] at hlt; exact keyLt_irrefl _ hlt
      · obtain ⟨w, hw, hwk⟩ := List.mem_map.mp h
        have hxw := hy w hw
        rw [hwk] at hxw
        exact keyLt_irrefl _ (keyLt_trans hlt hxw)
    · by_cases h2 : x.peq y
      · simp [h1, h2]
      · have hk : x.key ≠ y.key := fun he => h2 ((Instruction.peq_iff x y).mpr he)
        simp only [keysOf, List.map_cons, List.mem_cons] at h
        rcases h with h | h
        · exact absurd h hk
        · simp [h1, h2, ih hys h]

theorem length_insertBTree_of_not_mem (x : Instruction) (l : List Instruction)
    (h : x.key ∉ keysOf l) :
    (insertBTree x l).length = l.length + 1 := by
  induction l with
  | nil => simp [insertBTree]
  | cons y ys ih =>
    simp only [keysOf, List.map_cons, List.mem_cons, not_or] at h
    obtain ⟨hxy, hxys⟩ := h
    unfold insertBTree
    by_cases h1 : x.klt y
    · simp [h1]
    · by_cases h2 : x.peq y
      · exact absurd ((Instruction.peq_iff x y).mp h2) hxy
      · simp [h1, h2, ih hxys]


/-! ### Error taxonomy (`data_analyzer/src/errors.rs`) -/

/-- `ParseInstructionError`.  Payloads that only carry library error details
(`serde_json::Error`, `std::io::Error`, …) are dropped; the discriminating
fields (`site`, `index`, `len`, instruction name, …) are kept. -/
inductive ParseInstructionError
  | SerdeError
  | SighashFromSliceError
  | DeserializeError
  | DeserializeInInstructionError (instruction : String)
  | LimDeserializeInInstructionError (instruction : String)
  | DeserializeFromBase58Error
  | ParseError (msg : String)
  | InvalidIndex (site : String) (index : Nat) (max_len : Nat)
  | InvalidLength (site : String) (len : Nat) (expected_len : Nat)
  | ConvertingError
  | InvalidInstructionName
  | SighashMatchError (program : String)
  | ProgramAddressMatchError
  | Unsupported (what : String)
deriving DecidableEq, Repr

/-! ### base58 decoding (`rust_base58::FromBase58`, used via
`instruction.data.from_base58()?`; its error converts to
`DeserializeFromBase58Error` by the `From` impl in `errors.rs`). -/

def BASE58_ALPHABET : List Char :=
  "123456789ABCDEFGHJKLMNPQRSTUVWXYZabcdefghijkmnopqrstuvwxyz".toList

def base58CharVal (c : Char) : Option Nat :=
  BASE58_ALPHABET.findIdx? (· == c)

/-- Little-endian byte expansion of a natural number (no trailing zero
byte); fuel-structured so that it evaluates by kernel reduction (`m < 256 ^
fuel` suffices, and the wrapper passes `fuel = n ≥ m`). -/
def natToBytesLEAux : Nat → Nat → List Nat
  | _, 0 => []
  | 0, _ + 1 => []
  | fuel + 1, m + 1 => (m + 1) % 256 :: natToBytesLEAux fuel ((m + 1) / 256)

def natToBytesLE (n : Nat) : List Nat := natToBytesLEAux n n

/-- `from_base58`: reject any character outside the base58 alphabet
(yielding `DeserializeFromBase58Error`), otherwise interpret the string as
a base-58 big-endian number with one leading zero byte per leading `'1'`. -/
def from_base58 (s : String) : Except ParseInstructionError (List Nat) :=
  match s.toList.foldlM
      (fun acc c =>
        match base58CharVal c with
        | some v => Except.ok (acc * 58 + v)
        | none => Except.error ParseInstructionError.DeserializeFromBase58Error)
      (0 : Nat) with
  | .error e => .error e
  | .ok n =>
    let zeros := (s.toList.takeWhile (· == '1')).length
    .ok (List.replicate zeros 0 ++ (natToBytesLE n).reverse)

/-! ### Instruction arguments and the instruction decoder dispatch -/

/-- `InstructionArgument` from `main_storage/mod.rs`. -/
structure InstructionArgument where
  tx_signature : String := ""
  instruction_idx : Nat := 0
  inner_instructions_set : Option Nat := none
  program : String := ""
  arg_idx : Nat := 0
  arg_path : String := ""
  int_value : Option Int := none
  unsigned_value : Option Nat := none
  float_value : Option Float := none
  string_value : Option String := none
deriving Repr, Inhabited

/-- The 13 program addresses of the `match` in
`TransactionParser::parse_instruction` (`parse_instructions.rs`). -/
def knownPrograms : List String :=
  [ "packFeFNZzMfD9aVWL7QbGz1WcU7R9zpf6pvNsw2BLu"
  , "metaqbxxUerdq28cj1RbAWkYQm3ybzjb6a8bt518x1s"
  , "vau1zxA2LbssAUEF7Gpw91zMM1LvXrvpzJtmZ58rPsn"
  , "p1exdMJcjVao65QdewkaZRUnU6VPSXhus9n2GzWfh98"
  , "auctxRXPeJoc4817jDhf4HbjnhEcr1cCXenosMhK5R8"
  , "hausS13jsjafwWwGqZTUQRmWyvyxn9EQpqMwV1PBBmk"
  , "cndy3Z4yapfJBmL3ShUp5exZKqR3z33thTzeNMm2gRZ"
  , "SaLeTjyUa5wXHnGuewUSyJ5JWZaHwz3TxqUntCE9czo"
  , "gdrpGjVffourzkdDRrQmySw4aTHr8a3xmQzzxSwFD1a"
  , "qntmGodpGkrM42mN68VCZHXnKqDCT8rdY23wFcXCLPd"
  , "Stake11111111111111111111111111111111111111"
  , "Vote111111111111111111111111111111111111111"
  , "11111111111111111111111111111111" ]

/-- The per-program binary decoders (`parse_stake_instruction`,
`parse_token_metadata_instruction`, …) deserialize with external crates
(bincode / borsh / sighash tables); they are taken as a parameter mapping a
known program address and the base58-decoded bytes to either the
JSON-serialized instruction plus its argument rows, or a decode error. -/
abbrev Decoders :=
  String → List Nat → Except ParseInstructionError (String × List InstructionArgument)

/-- `TransactionParser::parse_instruction`: dispatch on the program address;
any address outside the 13-entry table yields `ProgramAddressMatchError`. -/
def parse_instruction (d : Decoders) (program_address : String) (data : List Nat) :
    Except ParseInstructionError (String × List InstructionArgument) :=
  if program_address ∈ knownPrograms then d program_address data
  else .error .ProgramAddressMatchError

/-! ### Transaction JSON shapes (`solana_transaction_status` inputs) -/

structure UiCompiledInstruction where
  program_id_index : Nat
  accounts : List Nat
  data : String
deriving DecidableEq, Repr

inductive UiInstruction
  | compiled (c : UiCompiledInstruction)
  | parsed
deriving DecidableEq, Repr

structure UiInnerInstructions where
  index : Nat
  instructions : List UiInstruction
deriving DecidableEq, Repr

structure UiLoadedAddresses where
  writable : List String := []
  readonly : List String := []
deriving DecidableEq, Repr

structure UiTransactionTokenBalance where
  account_index : Nat
  mint : String
  owner : Option String
  ui_amount : Option Float
  program_id : Option String
deriving Repr

structure UiTransactionStatusMeta where
  status_is_ok : Bool
  pre_balances : List Nat
  post_balances : List Nat
  pre_token_balances : Option (List UiTransactionTokenBalance)
  post_token_balances : Option (List UiTransactionTokenBalance)
  inner_instructions : Option (List UiInnerInstructions)
  loaded_addresses : Option UiLoadedAddresses
deriving Repr

structure UiRawMessage where
  account_keys : List String
  instructions : List UiCompiledInstruction
deriving DecidableEq, Repr

inductive UiMessage
  | raw (m : UiRawMessage)
  | parsed
deriving DecidableEq, Repr

inductive EncodedTransaction
  | json (signatures : List String) (message : UiMessage)
  | other
deriving DecidableEq, Repr

structure EncodedTransactionWithStatusMeta where
  transaction : EncodedTransaction
  meta : Option UiTransactionStatusMeta
deriving Repr

structure EncodedConfirmedTransactionWithStatusMeta where
  slot : Nat
  transaction : EncodedTransactionWithStatusMeta
  block_time : Option Int
deriving Repr

/-- `Balance` row from `main_storage/mod.rs`. -/
structure Balance where
  tx_signature : String
  account : String
  pre_balance : Option Nat
  post_balance : Option Nat
  pre_token_balance_mint : Option String
  pre_token_balance_owner : Option String
  pre_token_balance_amount : Option Float
  pre_token_balance_program_id : Option String
  post_token_balance_mint : Option String
  post_token_balance_owner : Option String
  post_token_balance_amount : Option Float
  post_token_balance_program_id : Option String
deriving Repr

/-! ### `append_outer_instruction` / `append_inner_instruction`
(`parse_delegations.rs`, lines 225-473) -/

/-- The account-resolution loop shared by both append functions: look up
each `u8` account index in the (extended) `accounts` key list; the first
out-of-range index yields `InvalidIndex{site, index, max_len}`. -/
def resolveInstructionAccounts (site : String) (accounts : List String)
    (idxs : List Nat) : Except ParseInstructionError (List (Option String)) :=
  match idxs with
  | [] => .ok []
  | i :: rest =>
    match accounts.get? i with
    | some a =>
      match resolveInstructionAccounts site accounts rest with
      | .ok l => .ok (some a :: l)
      | .error e => .error e
    | none => .error (.InvalidIndex site i accounts.length)

/-- `Vec::resize_with(ACCOUNTS_ARRAY_SIZE, Default::default)` on the
resolved account list: pad with `none` up to 256, truncate above 256. -/
def resizeAccounts (l : List (Option String)) : List (Option String) :=
  l.take ACCOUNTS_ARRAY_SIZE ++
    List.replicate (ACCOUNTS_ARRAY_SIZE - l.length) none

/-- Rust `str::split(sep)` on a character list: always at least one piece,
a separator at either end yields an empty piece there. -/
def splitCharList (sep : Char) : List Char → List (List Char)
  | [] => [[]]
  | c :: rest =>
    let r := splitCharList sep rest
    if c = sep then [] :: r
    else
      match r with
      | h :: t => (c :: h) :: t
      | [] => [[c]]

/-- `data.split('"').collect::<Vec<&str>>()`. -/
def splitQuote (s : String) : List String :=
  (splitCharList '"' s.toList).map (fun cs => String.mk cs)

/-- Instruction-name extraction: split the decoded data on `'"'`; more than
two pieces ⇒ the second piece, exactly one piece ⇒ empty name (raw base58
payload), otherwise `InvalidInstructionName`. -/
def instructionNameOf (parsedData : String) :
    Except ParseInstructionError String :=
  let splitted := splitQuote parsedData
  if splitted.length > 2 then .ok (splitted.getD 1 "")
  else if splitted.length = 1 then .ok ""
  else .error .InvalidInstructionName

/-- The body of one `append_outer_instruction` loop iteration: everything
from the `program_address` lookup to the built `Instruction` row and the
re-labelled argument rows; `k` is the `enumerate` counter
(`instruction_idx as u8` is modelled by `% 256`). -/
def buildOuterRow (d : Decoders) (k : Nat) (c : UiCompiledInstruction)
    (accounts : List String) (tx_signature : String) (slot block_time : Nat)
    (tx_status : TxStatus) :
    Except ParseInstructionError (Instruction × List InstructionArgument) := do
  let program_address ←
    match accounts.get? c.program_id_index with
    | some p => Except.ok p
    | none => Except.error (.ParseError "Failed to get program_address")
  let resolved ← resolveInstructionAccounts "instruction" accounts c.accounts
  let resized := resizeAccounts resolved
  let bytes ← from_base58 c.data
  let parsedData ←
    match parse_instruction d program_address bytes with
    | .error .ProgramAddressMatchError =>
      Except.ok (c.data, ([] : List InstructionArgument))
    | other => other
  let name ← instructionNameOf parsedData.1
  if resized.length ≠ ACCOUNTS_ARRAY_SIZE then
    Except.error .ConvertingError
  else
    let instr : Instruction :=
      { program := program_address, tx_signature := tx_signature
        tx_status := tx_status, slot := slot, block_time := block_time
        instruction_idx := k % 256, inner_instructions_set := none
        transaction_instruction_idx := none, instruction_name := name
        accounts := resized, data := parsedData.1 }
    let newArgs := parsedData.2.map fun a =>
      { a with tx_signature := tx_signature, instruction_idx := k % 256
               inner_instructions_set := none, program := program_address }
    Except.ok (instr, newArgs)

/-- The `append_outer_instruction` loop from counter position `k`. -/
def appendOuterFrom (d : Decoders) (k : Nat)
    (instructions : List UiCompiledInstruction) (accounts : List String)
    (tx_signature : String) (slot block_time : Nat) (tx_status : TxStatus)
    (set : List Instruction) (args : List InstructionArgument) :
    Except ParseInstructionError (List Instruction × List InstructionArgument) :=
  match instructions with
  | [] => .ok (set, args)
  | c :: rest => do
    let (instr, newArgs) ← buildOuterRow d k c accounts tx_signature slot
      block_time tx_status
    appendOuterFrom d (k + 1) rest accounts tx_signature slot block_time
      tx_status (insertBTree instr set) (args ++ newArgs)

/-- The body of one inner-instruction iteration of
`append_inner_instruction`: `gi` is the group's `enumerate` position
(`inner_instructions_set as u8`), `gIndex` the group's `index` field, `j`
the inner `enumerate` counter.  A non-`Compiled` inner instruction yields
`Unsupported`. -/
def buildInnerRow (d : Decoders) (gi gIndex j : Nat) (ui : UiInstruction)
    (accounts : List String) (tx_signature : String) (slot block_time : Nat)
    (tx_status : TxStatus) :
    Except ParseInstructionError (Instruction × List InstructionArgument) := do
  match ui with
  | .parsed =>
    Except.error (.Unsupported "UiInstruction::Compiled in Inner instruction")
  | .compiled c =>
    let inner_program_address ←
      match accounts.get? c.program_id_index with
      | some p => Except.ok p
      | none => Except.error (.ParseError "Failed to get inner_program_address")
    let resolved ←
      resolveInstructionAccounts "inner_instruction" accounts c.accounts
    let resized := resizeAccounts resolved
    let bytes ← from_base58 c.data
    let parsedData ←
      match parse_instruction d inner_program_address bytes with
      | .error .ProgramAddressMatchError =>
        Except.ok (c.data, ([] : List InstructionArgument))
      | other => other
    let name ← instructionNameOf parsedData.1
    if resized.length ≠ ACCOUNTS_ARRAY_SIZE then
      Except.error .ConvertingError
    else
      let instr : Instruction :=
        { program := inner_program_address, tx_signature := tx_signature
          tx_status := tx_status, slot := slot, block_time := block_time
          instruction_idx := j % 256, inner_instructions_set := some (gi % 256)
          transaction_instruction_idx := some gIndex, instruction_name := name
          accounts := resized, data := parsedData.1 }
      let newArgs := parsedData.2.map fun a =>
        { a with tx_signature := tx_signature, instruction_idx := j % 256
                 inner_instructions_set := some (gi % 256)
                 program := inner_program_address }
      Except.ok (instr, newArgs)

/-- The inner loop of `append_inner_instruction` over one group's
instructions, from inner counter position `j`. -/
def appendInnerGroupFrom (d : Decoders) (gi gIndex j : Nat)
    (instructions : List UiInstruction) (accounts : List String)
    (tx_signature : String) (slot block_time : Nat) (tx_status : TxStatus)
    (set : List Instruction) (args : List InstructionArgument) :
    Except ParseInstructionError (List Instruction × List InstructionArgument) :=
  match instructions with
  | [] => .ok (set, args)
  | ui :: rest => do
    let (instr, newArgs) ← buildInnerRow d gi gIndex j ui accounts
      tx_signature slot block_time tx_status
    appendInnerGroupFrom d gi gIndex (j + 1) rest accounts tx_signature slot
      block_time tx_status (insertBTree instr set) (args ++ newArgs)

/-- `append_inner_instruction`'s outer loop over inner-instruction groups;
`g` is the running group `enumerate` counter. -/
def appendInnerFrom (d : Decoders) (g : Nat)
    (groups : List UiInnerInstructions) (accounts : List String)
    (tx_signature : String) (slot block_time : Nat) (tx_status : TxStatus)
    (set : List Instruction) (args : List InstructionArgument) :
    Except ParseInstructionError (List Instruction × List InstructionArgument) :=
  match groups with
  | [] => .ok (set, args)
  | grp :: rest => do
    let (set', args') ← appendInnerGroupFrom d g grp.index 0 grp.instructions
      accounts tx_signature slot block_time tx_status set args
    appendInnerFrom d (g + 1) rest accounts tx_signature slot block_time
      tx_status set' args'

/-- `TransactionParser::append_instructions`: outer instructions first, then
the inner-instruction groups (when meta carried any). -/
def append_instructions (d : Decoders)
    (instructions : List UiCompiledInstruction)
    (inner_instructions : Option (List UiInnerInstructions))
    (accounts : List String) (tx_signature : String) (slot block_time : Nat)
    (tx_status : TxStatus) (set : List Instruction)
    (args : List InstructionArgument) :
    Except ParseInstructionError (List Instruction × List InstructionArgument) := do
  let (set', args') ← appendOuterFrom d 0 instructions accounts tx_signature
    slot block_time tx_status set args
  match inner_instructions with
  | some groups =>
    appendInnerFrom d 0 groups accounts tx_signature slot block_time
      tx_status set' args'
  | none => .ok (set', args')

/-! ### `parse_transactions` (`parse_instructions.rs`, lines 34-215) -/

/-- Rust `as u64` on an `i64` (used for `block_time`). -/
def intToU64 (i : Int) : Nat := (i % (18446744073709551616 : Int)).toNat

/-- The token-balance loops' range check: the first entry whose
`account_index` is not below `ACCOUNTS_ARRAY_SIZE` yields `InvalidIndex`. -/
def checkTokenBalances (site : String) :
    List UiTransactionTokenBalance → Except ParseInstructionError Unit
  | [] => .ok ()
  | e :: rest =>
    if e.account_index ≥ ACCOUNTS_ARRAY_SIZE then
      .error (.InvalidIndex site e.account_index ACCOUNTS_ARRAY_SIZE)
    else checkTokenBalances site rest

/-- Final content of the 256-wide token-balance vectors at index `i`: the
last entry written there (later loop iterations overwrite earlier ones). -/
def lastTokenAt (entries : List UiTransactionTokenBalance) (i : Nat) :
    Option UiTransactionTokenBalance :=
  entries.reverse.find? (fun e => e.account_index == i)

/-- The `accounts.iter().enumerate()` loop that fills `pre_balances_map`
and pushes one `Balance` row per account.  `none` models the panics of the
source: indexing the 256-wide vectors out of range (when the loaded-address
extension pushes `accounts` past 256) and `pre_balances[i].unwrap()` (when
`meta.pre_balances` does not cover account `i`). -/
def mkBalanceRowsFrom (tx_signature : String) (k : Nat)
    (accounts : List String) (preB postB : List Nat)
    (preTB postTB : List UiTransactionTokenBalance)
    (rows : List Balance) (preMap : List (String × Nat)) :
    Option (List Balance × List (String × Nat)) :=
  match accounts with
  | [] => some (rows, preMap)
  | account :: rest =>
    if k ≥ ACCOUNTS_ARRAY_SIZE then none
    else
      match (if k < preB.length then some (preB.getD k 0) else none) with
      | none => none
      | some preVal =>
        let postVal := if k < postB.length then some (postB.getD k 0) else none
        let preTok := lastTokenAt preTB k
        let postTok := lastTokenAt postTB k
        let row : Balance :=
          { tx_signature := tx_signature, account := account
            pre_balance := some preVal, post_balance := postVal
            pre_token_balance_mint := preTok.map (·.mint)
            pre_token_balance_owner := preTok.bind (·.owner)
            pre_token_balance_amount := preTok.bind (·.ui_amount)
            pre_token_balance_program_id := preTok.bind (·.program_id)
            post_token_balance_mint := postTok.map (·.mint)
            post_token_balance_owner := postTok.bind (·.owner)
            post_token_balance_amount := postTok.bind (·.ui_amount)
            post_token_balance_program_id := postTok.bind (·.program_id) }
        mkBalanceRowsFrom tx_signature (k + 1) rest preB postB preTB postTB
          (rows ++ [row]) (preMap ++ [(account, preVal)])

/-- The loaded-address extension of the account keys
(`accounts.extend(loaded_addresses.writable)`, then `.readonly`). -/
def extendedAccounts (account_keys : List String)
    (m : UiTransactionStatusMeta) : List String :=
  account_keys ++ (m.loaded_addresses.getD ({} : UiLoadedAddresses)).writable
    ++ (m.loaded_addresses.getD ({} : UiLoadedAddresses)).readonly

/-- `tx_status` from `meta.status.is_ok()`. -/
def metaTxStatus (m : UiTransactionStatusMeta) : TxStatus :=
  if m.status_is_ok then TxStatus.Success else TxStatus.Failed

/-- The balances part of `parse_transactions` (length checks, token-balance
index checks, then the per-account `Balance` row loop); the outer `Option`
models its panics. -/
def balancesSection (tx_signature : String) (accounts : List String)
    (m : UiTransactionStatusMeta) :
    Option (Except ParseInstructionError
      (List Balance × List (String × Nat))) :=
  if m.pre_balances.length > ACCOUNTS_ARRAY_SIZE then
    some (.error (.InvalidLength "pre_balances" m.pre_balances.length
      ACCOUNTS_ARRAY_SIZE))
  else if m.post_balances.length > ACCOUNTS_ARRAY_SIZE then
    some (.error (.InvalidLength "post_balances" m.post_balances.length
      ACCOUNTS_ARRAY_SIZE))
  else
    match checkTokenBalances "pre_token_balance"
        (m.pre_token_balances.getD []) with
    | .error e => some (.error e)
    | .ok _ =>
      match checkTokenBalances "post_token_balance"
          (m.post_token_balances.getD []) with
      | .error e => some (.error e)
      | .ok _ =>
        match mkBalanceRowsFrom tx_signature 0 accounts m.pre_balances
            m.post_balances (m.pre_token_balances.getD [])
            (m.post_token_balances.getD []) [] [] with
        | none => none
        | some (rows, preMap) => some (.ok (rows, preMap))

/-- `TransactionParser::parse_transactions`.  The outer `Option` models the
panics of the source (`signatures[0]` on an empty list, and the balance-loop
panics of `mkBalanceRowsFrom`); the inner `Except` is the function's
`Result`. -/
def parse_transactions (d : Decoders)
    (confirmed_transaction : EncodedConfirmedTransactionWithStatusMeta) :
    Option (Except ParseInstructionError
      (List Instruction × List Balance × List InstructionArgument)) :=
  let slot := confirmed_transaction.slot
  let block_time := confirmed_transaction.block_time.getD 0
  match confirmed_transaction.transaction.transaction with
  | .other => some (.error (.Unsupported "EncodedTransaction::Json in message"))
  | .json signatures message =>
    match signatures.get? 0 with
    | none => none
    | some tx_signature =>
      match message with
      | .parsed => some (.error (.Unsupported "UiMessage::Raw in message"))
      | .raw message_raw =>
        if message_raw.account_keys.length > ACCOUNTS_ARRAY_SIZE then
          some (.error (.InvalidLength "accounts"
            message_raw.account_keys.length ACCOUNTS_ARRAY_SIZE))
        else
          match confirmed_transaction.transaction.meta with
          | some transaction_meta =>
            let accounts :=
              extendedAccounts message_raw.account_keys transaction_meta
            match balancesSection tx_signature accounts transaction_meta with
            | none => none
            | some (.error e) => some (.error e)
            | some (.ok (balances, _preMap)) =>
              match append_instructions d message_raw.instructions
                  transaction_meta.inner_instructions accounts tx_signature
                  slot (intToU64 block_time)
                  (metaTxStatus transaction_meta) [] [] with
              | .error e => some (.error e)
              | .ok (set, args) => some (.ok (set, balances, args))
          | none =>
            match append_instructions d message_raw.instructions none
                message_raw.account_keys tx_signature slot
                (intToU64 block_time) TxStatus.Success [] [] with
            | .error e => some (.error e)
            | .ok (set, args) => some (.ok (set, [], args))

/-! ### Delegation analyzer (`parse_delegations.rs`, lines 18-223) -/

/-- `Delegation` row from `main_storage/mod.rs`. -/
structure Delegation where
  slot : Nat := 0
  block_time : Nat := 0
  stake_acc : String := ""
  vote_acc : Option String := none
  tx_signature : String := ""
  amount : Nat := 0
  raw_instruction_idx : Nat := 0
deriving DecidableEq, Repr

/-- `transaction_parser/mod.rs`: `STAKE_ACC_RENT_EXEMPTION`. -/
def STAKE_ACC_RENT_EXEMPTION : Nat := 2282880

/-- `parse_delegations.rs`: `FIRST_ACCOUNTS`. -/
def FIRST_ACCOUNTS : Nat := 2

def STAKE_PROGRAM_ADDRESS : String :=
  "Stake11111111111111111111111111111111111111"

/-- The whitelist from the top of the `parse_delegations` loop. -/
def delegationInstructionNames : List String :=
  ["Withdraw", "Merge", "Split", "Deactivate", "DelegateStake",
   "CreateAccount", "CreateAccountWithSeed", "Transfer"]

/-- The stake-account candidate extraction at the top of
`parse_delegations`: flat-map every instruction's (256-wide) accounts
array, enumerate the *concatenated* stream, and keep the entries that are
non-empty and whose global position is below `FIRST_ACCOUNTS`. -/
def instructionsAccounts (instructions : List Instruction) : List String :=
  (((instructions.flatMap fun instruction => instruction.accounts).enum.filter
      fun p => p.2.isSome && decide (p.1 < FIRST_ACCOUNTS)).filterMap
    fun p => p.2)

/-! `HashMap<String, u64>` / `HashMap<String, Option<String>>` models:
association lists with at most one entry per key. -/

def hmGet (m : List (String × Nat)) (k : String) : Option Nat :=
  (m.find? (fun p => p.1 == k)).map (·.2)

def hmSet : List (String × Nat) → String → Nat → List (String × Nat)
  | [], k, v => [(k, v)]
  | (k', v') :: rest, k, v =>
    if k' = k then (k, v) :: rest else (k', v') :: hmSet rest k v

/-- `get_mut(k).unwrap()` followed by an in-place update; `none` when the
key is absent (the `unwrap` panic). -/
def hmUpdate (m : List (String × Nat)) (k : String) (f : Nat → Nat) :
    Option (List (String × Nat)) :=
  match hmGet m k with
  | none => none
  | some v => some (hmSet m k (f v))

/-- `entry(k).or_insert(v)`. -/
def hmEnsure (m : List (String × Nat)) (k : String) (v : Nat) :
    List (String × Nat) :=
  match hmGet m k with
  | some _ => m
  | none => hmSet m k v

def amGet (m : List (String × Option String)) (k : String) :
    Option (Option String) :=
  (m.find? (fun p => p.1 == k)).map (·.2)

def amSet : List (String × Option String) → String → Option String →
    List (String × Option String)
  | [], k, v => [(k, v)]
  | (k', v') :: rest, k, v =>
    if k' = k then (k, v) :: rest else (k', v') :: amSet rest k v

def amRemove (m : List (String × Option String)) (k : String) :
    List (String × Option String) :=
  m.filter (fun p => ¬ p.1 == k)

/-- Wrapping `u64` addition (`+=` under release-profile semantics). -/
def u64add (a b : Nat) : Nat := (a + b) % 18446744073709551616

/-- Wrapping `u64` subtraction (`-=` under release-profile semantics; a
debug build would panic on underflow instead). -/
def u64subWrap (a b : Nat) : Nat :=
  (a % 18446744073709551616 + 18446744073709551616
    - b % 18446744073709551616) % 18446744073709551616

/-- `serde_json::from_str::<Value>(&data)` followed by a field-path lookup
and `.as_u64()`, as used on the decoded instruction's JSON `data`; the
library behaviour is taken as a parameter, `none` meaning one of the two
`unwrap`s panics. -/
abbrev JsonU64 := String → List String → Option Nat

/-- Shared state of the `parse_delegations` loop. -/
structure DelegState where
  delegations : List Delegation
  undelegations : List Delegation
  previous_balance : List (String × Nat)
  vote_accounts : List (String × Option String)
deriving DecidableEq, Repr

/-- One iteration of the `parse_delegations` transition loop.  `sub` is the
subtraction used at the two `-=` sites of the `Withdraw` and `Transfer`
arms (`u64subWrap` in the source; the spec's words say saturating). -/
def delegationStepWith (sub : Nat → Nat → Nat) (j : JsonU64)
    (pre_balances : List (String × Nat)) (st : DelegState)
    (instruction : Instruction) : Option DelegState :=
  if ¬ (instruction.instruction_name ∈ delegationInstructionNames) ∨
      instruction.program ≠ STAKE_PROGRAM_ADDRESS then
    some st
  else do
    let raw_instruction_idx := instruction.get_raw_instruction_idx
    let instruction_name := instruction.instruction_name
    let tx_signature := instruction.tx_signature
    let account_0 ← instruction.accounts.getD 0 none
    let account_1 ← instruction.accounts.getD 1 none
    let data := instruction.data
    let slot := instruction.slot
    let block_time := instruction.block_time
    let bal := hmEnsure st.previous_balance account_0
      ((hmGet pre_balances account_0).getD 0)
    let bal := hmEnsure bal account_1 ((hmGet pre_balances account_1).getD 0)
    match instruction_name with
    | "DelegateStake" => do
      let b0 ← hmGet bal account_0
      some { st with
        delegations := st.delegations ++
          [{ slot, block_time, stake_acc := account_0
             vote_acc := some account_1, tx_signature
             amount := b0 - STAKE_ACC_RENT_EXEMPTION, raw_instruction_idx }]
        previous_balance := bal
        vote_accounts := amSet st.vote_accounts account_0 (some account_1) }
    | "Deactivate" => do
      let b0 ← hmGet bal account_0
      some { st with
        undelegations := st.undelegations ++
          [{ slot, block_time, stake_acc := account_0
             vote_acc := (amGet st.vote_accounts account_0).getD none
             tx_signature, amount := b0 - STAKE_ACC_RENT_EXEMPTION
             raw_instruction_idx }]
        previous_balance := bal
        vote_accounts := amSet st.vote_accounts account_0 none }
    | "CreateAccountWithSeed" => do
      let lamports ← j data ["CreateAccountWithSeed", "lamports"]
      let bal ← hmUpdate bal account_1 (fun v => u64add v lamports)
      some { st with previous_balance := bal }
    | "Withdraw" => do
      let amount ← j data ["Withdraw"]
      let bal ← hmUpdate bal account_0 (fun v => sub v amount)
      let amount2 ← j data ["Withdraw"]
      let bal ← hmUpdate bal account_1 (fun v => u64add v amount2)
      some { st with previous_balance := bal }
    | "Transfer" => do
      let lamports ← j data ["Transfer", "lamports"]
      let bal ← hmUpdate bal account_0 (fun v => sub v lamports)
      let lamports2 ← j data ["Transfer", "lamports"]
      let bal ← hmUpdate bal account_1 (fun v => u64add v lamports2)
      some { st with previous_balance := bal }
    | "CreateAccount" => do
      let lamports ← j data ["CreateAccount", "lamports"]
      let bal ← hmUpdate bal account_1 (fun v => u64add v lamports)
      some { st with previous_balance := bal }
    | "Split" => do
      let amount ← j data ["Split"]
      let vote_acc := (amGet st.vote_accounts account_0).getD none
      let undelegations := st.undelegations ++
        [{ slot, block_time, stake_acc := account_0, vote_acc := vote_acc
           tx_signature, amount := amount, raw_instruction_idx }]
      let delegations := st.delegations ++
        [{ slot, block_time, stake_acc := account_1, vote_acc := vote_acc
           tx_signature, amount := amount - STAKE_ACC_RENT_EXEMPTION
           raw_instruction_idx }]
      let vote_accounts := amSet st.vote_accounts account_1 vote_acc
      let b0 ← hmGet bal account_0
      let bal := hmSet bal account_0 (b0 - amount)
      let bal ← hmUpdate bal account_1 (fun v => u64add v amount)
      let b0' ← hmGet bal account_0
      let vote_accounts :=
        if b0' < STAKE_ACC_RENT_EXEMPTION then amSet vote_accounts account_0 none
        else vote_accounts
      some { delegations, undelegations, previous_balance := bal, vote_accounts }
    | "Merge" => do
      let vote_acc := (amGet st.vote_accounts account_0).getD none
      let b1 ← hmGet bal account_1
      let delegations := st.delegations ++
        [{ slot, block_time, stake_acc := account_0, vote_acc := vote_acc
           tx_signature, amount := b1 - STAKE_ACC_RENT_EXEMPTION
           raw_instruction_idx }]
      let undelegations := st.undelegations ++
        [{ slot, block_time, stake_acc := account_1, vote_acc := vote_acc
           tx_signature, amount := b1 - STAKE_ACC_RENT_EXEMPTION
           raw_instruction_idx }]
      let vote_accounts := amSet st.vote_accounts account_0 none
      let bal ← hmUpdate bal account_0 (fun v => u64add v b1)
      let bal := hmSet bal account_1 0
      let vote_accounts := amRemove vote_accounts account_1
      some { delegations, undelegations, previous_balance := bal, vote_accounts }
    | _ => none

/-- `TransactionParser::parse_delegations`.  `lookupBindings` models the
queue's `get_delegations` answer for the candidate stake accounts; the
returned triple is `(delegations, undelegations, vote_accounts)` where the
third component is what `save_delegations` then persists.  The `sub`
parameter is threaded to `delegationStepWith`. -/
def parseDelegationsWith (sub : Nat → Nat → Nat) (j : JsonU64)
    (lookupBindings : List String → List (String × Option String))
    (instructions : List Instruction) (pre_balances : List (String × Nat)) :
    Option (List Delegation × List Delegation ×
      List (String × Option String)) := do
  let instructions_accounts := instructionsAccounts instructions
  let vote_accounts := (lookupBindings instructions_accounts).foldl
    (fun m p => amSet m p.1 p.2) []
  let st0 : DelegState :=
    { delegations := [], undelegations := [], previous_balance := []
      vote_accounts := vote_accounts }
  let st ← instructions.foldlM (delegationStepWith sub j pre_balances) st0
  some (st.delegations, st.undelegations, st.vote_accounts)

/-- The source semantics of `parse_delegations` (unchecked `-=` at the
`Withdraw`/`Transfer` sites, wrapping in a release build). -/
def parse_delegations (j : JsonU64)
    (lookupBindings : List String → List (String × Option String))
    (instructions : List Instruction) (pre_balances : List (String × Nat)) :
    Option (List Delegation × List Delegation ×
      List (String × Option String)) :=
  parseDelegationsWith u64subWrap j lookupBindings instructions pre_balances

/-- The semantics the spec's words describe for C4: every balance
subtraction saturating (`Nat` truncated subtraction). -/
def parse_delegations_saturating (j : JsonU64)
    (lookupBindings : List String → List (String × Option String))
    (instructions : List Instruction) (pre_balances : List (String × Nat)) :
    Option (List Delegation × List Delegation ×
      List (String × Option String)) :=
  parseDelegationsWith (· - ·) j lookupBindings instructions pre_balances

/-! ### `PathTree` and argument flattening (`main_storage/mod.rs`,
lines 222-307) -/

/-- `PathTree`: the recursive typed tree of decoded instruction arguments.
The Rust variant `None` (a unit leaf) is modelled as `unit`. -/
inductive PathTree
  | string (s : String)
  | int (i : Int)
  | unsigned (u : Nat)
  | float (f : Float)
  | path (entries : List (String × PathTree))
  | unit
deriving Inhabited, Repr

mutual

/-- `PathTree::get_instruction_args_vec`: returns the grown accumulator and
the updated `arg_idx` counter (both `&mut` in the source). -/
def getInstructionArgsVec : PathTree → List InstructionArgument →
    InstructionArgument → Nat → List InstructionArgument × Nat
  | .string s, acc, dflt, i =>
    (acc ++ [{ dflt with string_value := some s, arg_idx := i }], i + 1)
  | .int v, acc, dflt, i =>
    (acc ++ [{ dflt with int_value := some v, arg_idx := i }], i + 1)
  | .unsigned v, acc, dflt, i =>
    (acc ++ [{ dflt with unsigned_value := some v, arg_idx := i }], i + 1)
  | .float v, acc, dflt, i =>
    (acc ++ [{ dflt with float_value := some v, arg_idx := i }], i + 1)
  | .unit, acc, dflt, i =>
    (acc ++ [{ dflt with arg_idx := i }], i + 1)
  | .path entries, acc, dflt, i => getArgsEntries entries acc dflt i

/-- The `path.into_iter().for_each(..)` loop: each child receives a `mock`
default whose `arg_path` gains `"/" ++ field_name` unless the name is empty
and the running `arg_idx` is non-zero. -/
def getArgsEntries : List (String × PathTree) → List InstructionArgument →
    InstructionArgument → Nat → List InstructionArgument × Nat
  | [], acc, _, i => (acc, i)
  | (field_name, t) :: rest, acc, dflt, i =>
    let mock :=
      if ¬ field_name = "" ∨ i = 0 then
        { dflt with arg_path := dflt.arg_path ++ "/" ++ field_name }
      else dflt
    let out := getInstructionArgsVec t acc mock i
    getArgsEntries rest out.1 dflt out.2

end

/-! ### Historical binding lookup
(`rewards_analyzer/src/storage/main_storage/{http_client,tcp_client}.rs`,
`lookup_vote_acc`) -/

/-- The `WHERE stake_acc = ? AND slot <= ?` filter of both subqueries. -/
def matchingEvents (rows : List Delegation) (stake_acc : String)
    (slot : Nat) : List Delegation :=
  rows.filter (fun r => r.stake_acc == stake_acc && decide (r.slot ≤ slot))

def eventKey (r : Delegation) : Nat × Nat := (r.slot, r.raw_instruction_idx)

/-- `ORDER BY slot DESC, raw_instruction_idx DESC LIMIT 1`: an event with
maximal `(slot, raw_instruction_idx)` key.  On ties the SQL row choice is
unspecified; this model keeps the earlier row, and the theorems only use it
under strict-maximum hypotheses where every choice coincides. -/
def top1 : List Delegation → Option Delegation
  | [] => none
  | r :: rs =>
    match top1 rs with
    | none => some r
    | some b => if keyLt (eventKey b) (eventKey r) then some r else some b

/-- `lookup_vote_acc`: take the top-1 delegation and top-1 undelegation at
or before `slot`, pick the greater, and return its `vote_acc` only when it
is the delegation (`is_delegation = 1`); otherwise `none`. -/
def lookup_vote_acc (dels unds : List Delegation) (slot : Nat)
    (stake_acc : String) : Option String :=
  match top1 (matchingEvents dels stake_acc slot),
      top1 (matchingEvents unds stake_acc slot) with
  | none, _ => none
  | some d, none => d.vote_acc
  | some d, some u =>
    if keyLt (eventKey d) (eventKey u) then none else d.vote_acc

/-! ### Signature cursor (`data_loader/src/signatures_loading_ctx.rs`,
lines 47-106) -/

/-- The resume cursor (`saved_state`). -/
structure SavedState where
  newest_transaction : Option String
  before : Option String
  untilSig : Option String
deriving DecidableEq, Repr

/-- `Signature::default().to_string()`: the base58 text of 64 zero bytes
(64 `'1'` characters), produced by `until.unwrap_or_default()`. -/
def DEFAULT_SIGNATURE : String := String.mk (List.replicate 64 '1')

/-- One pass of the `setup_and_run` loop body over a loaded signature
batch, up to the point where the batch and cursor are persisted: set
`newest_transaction` on first sight, set `before` to the signature at index
`len.saturating_sub(2)`, and on encountering `until` finish the sweep. -/
def processBatch (st : SavedState) (signatures : List String) : SavedState :=
  let st1 :=
    match st.newest_transaction, signatures with
    | none, s :: _ => { st with newest_transaction := some s }
    | _, _ => st
  match signatures with
  | [] => st1
  | s0 :: _ =>
    let before_idx := signatures.length - 2
    let st2 := { st1 with before := some (signatures.getD before_idx s0) }
    let untilStr := st2.untilSig.getD DEFAULT_SIGNATURE
    if signatures.contains untilStr then
      let st3 :=
        if st2.newest_transaction.isSome then
          { st2 with untilSig := st2.newest_transaction }
        else st2
      { st3 with before := none, newest_transaction := none }
    else st2

/-! ### Reward attributor (`rewards_analyzer/src/rewards_analyzer.rs`,
lines 36-69, and `store_rewards_block` of the storage clients) -/

inductive RewardType
  | fee
  | rent
  | staking
  | voting
deriving DecidableEq, Repr

/-- `solana_transaction_status::Reward` (the fields the analyzer reads). -/
structure Reward where
  pubkey : String
  lamports : Int
  post_balance : Nat
  reward_type : Option RewardType
  commission : Option Nat
deriving DecidableEq, Repr

/-- A row of the columnar `rewards` table (`RewardRec`). -/
structure RewardRec where
  vote_account : String
  epoch : Nat
  pubkey : String
  lamports : Int
  post_balance : Nat
  reward_type : Option String
  commission : Option Nat
  first_block_slot : Option Nat
  block_time : Nat
deriving DecidableEq, Repr

/-- Rust `as u32` on an `i64` (`block_time`). -/
def intToU32 (i : Int) : Nat := (i % (4294967296 : Int)).toNat

def rewardTypeName : RewardType → String
  | .fee => "fee"
  | .rent => "rent"
  | .staking => "staking"
  | .voting => "voting"

/-- The reward loop of `RewardsAnalyzer::run` for one epoch: staking
rewards resolve `vote_acc` through the historical lookup on the
delegation/undelegation event tables (empty string when unresolved), voting
rewards carry an empty vote account, all other reward kinds are skipped.
`none` models the `first_block_slot.unwrap()` panic. -/
def collectEpochRewards (dels unds : List Delegation) (epoch : Nat)
    (first_block_slot : Option Nat) (block_time : Int)
    (rewards : List Reward) :
    Option (List (String × Nat × Option Nat × Reward × Int)) :=
  rewards.foldlM
    (fun acc reward =>
      match reward.reward_type with
      | some RewardType.staking =>
        match first_block_slot with
        | none => none
        | some fbs =>
          let vote_acc := (lookup_vote_acc dels unds fbs reward.pubkey).getD ""
          some (acc ++ [(vote_acc, epoch, first_block_slot, reward, block_time)])
      | some RewardType.voting =>
        some (acc ++ [("", epoch, first_block_slot, reward, block_time)])
      | _ => some acc)
    []

/-- `store_rewards_block`: each buffered tuple becomes a `RewardRec` with
`epoch = epoch - 1` (wrapping `u64` subtraction). -/
def store_rewards_block
    (rewards : List (String × Nat × Option Nat × Reward × Int)) :
    List RewardRec :=
  rewards.map fun t =>
    match t with
    | (vote_account, epoch, first_block_slot, reward, block_time) =>
      { vote_account := vote_account
        epoch := u64subWrap epoch 1
        pubkey := reward.pubkey
        lamports := reward.lamports
        post_balance := reward.post_balance
        reward_type := reward.reward_type.map rewardTypeName
        commission := reward.commission
        first_block_slot := first_block_slot
        block_time := intToU32 block_time }

/-- One epoch of the reward attributor: the collected tuples (buffered
through the rewards collector, which preserves insertion order) written by
`store_rewards_block`. -/
def analyzeEpochRewards (dels unds : List Delegation) (epoch : Nat)
    (first_block_slot : Option Nat) (block_time : Int)
    (rewards : List Reward) : Option (List RewardRec) :=
  (collectEpochRewards dels unds epoch first_block_slot block_time
    rewards).map store_rewards_block

/-! ### Statement helpers and concrete inputs used by the theorems -/

/-- A decoder oracle that rejects everything (the decoded payloads never
matter for control-flow claims about unknown programs). -/
def decZero : Decoders := fun _ _ => .error .DeserializeError

/-- Projection: the number of instruction rows of a successful parse. -/
def instrCountOf (r : Option (Except ParseInstructionError
    (List Instruction × List Balance × List InstructionArgument))) :
    Option Nat :=
  match r with
  | some (.ok t) => some t.1.length
  | _ => none

/-- Projection: the instruction rows of a successful parse. -/
def instrRowsOf (r : Option (Except ParseInstructionError
    (List Instruction × List Balance × List InstructionArgument))) :
    Option (List Instruction) :=
  match r with
  | some (.ok t) => some t.1
  | _ => none

/-- Projection: the argument rows of a successful parse. -/
def argRowsOf (r : Option (Except ParseInstructionError
    (List Instruction × List Balance × List InstructionArgument))) :
    Option (List InstructionArgument) :=
  match r with
  | some (.ok t) => some t.2.2
  | _ => none

/-- Projection: the error of a failed parse. -/
def parseErrOf (r : Option (Except ParseInstructionError
    (List Instruction × List Balance × List InstructionArgument))) :
    Option ParseInstructionError :=
  match r with
  | some (.error e) => some e
  | _ => none

/-- C10's collision transaction: one outer instruction and two
inner-instruction groups that both carry `index = 0` with one compiled
instruction each, so both inner rows encode to `raw_instruction_idx = 1`. -/
def txC10 : EncodedConfirmedTransactionWithStatusMeta :=
  { slot := 5,
    transaction :=
      { transaction := EncodedTransaction.json ["SIG"] (UiMessage.raw
          { account_keys := ["Prog"], instructions := [⟨0, [], ""⟩] }),
        meta := some
          { status_is_ok := true, pre_balances := [0], post_balances := [0],
            pre_token_balances := none, post_token_balances := none,
            inner_instructions := some
              [⟨0, [UiInstruction.compiled ⟨0, [], ""⟩]⟩,
               ⟨0, [UiInstruction.compiled ⟨0, [], ""⟩]⟩],
            loaded_addresses := none } },
    block_time := some 99 }

/-- Two instruction rows of one transaction with equal
`(slot, raw_instruction_idx)` but different program/name/data. -/
def instrKeyA : Instruction :=
  { program := "ProgA", tx_signature := "SIG", tx_status := .Success,
    slot := 5, block_time := 0, instruction_idx := 1,
    inner_instructions_set := none, transaction_instruction_idx := none,
    instruction_name := "NameA", accounts := [], data := "dataA" }

def instrKeyB : Instruction :=
  { program := "ProgB", tx_signature := "SIG", tx_status := .Success,
    slot := 5, block_time := 7, instruction_idx := 1,
    inner_instructions_set := none, transaction_instruction_idx := none,
    instruction_name := "NameB", accounts := [some "x"], data := "dataB" }

/-- C3's concrete instructions: two stake instructions with 256-wide
account arrays; the first's `accounts[0]` is `"A"`, the second's is
`"B"`. -/
def instrC3A : Instruction :=
  { program := STAKE_PROGRAM_ADDRESS, tx_signature := "SIG",
    tx_status := .Success, slot := 1, block_time := 0, instruction_idx := 0,
    inner_instructions_set := none, transaction_instruction_idx := none,
    instruction_name := "DelegateStake",
    accounts := some "A" :: List.replicate 255 none, data := "" }

def instrC3B : Instruction :=
  { program := STAKE_PROGRAM_ADDRESS, tx_signature := "SIG",
    tx_status := .Success, slot := 1, block_time := 0, instruction_idx := 1,
    inner_instructions_set := none, transaction_instruction_idx := none,
    instruction_name := "DelegateStake",
    accounts := some "B" :: List.replicate 255 none, data := "" }

/-- C5's concrete cursors: one mid-sweep cursor whose `until` is a
signature absent from the batch, one whose `until` is present. -/
def stC5 : SavedState :=
  { newest_transaction := none, before := none, untilSig := some "u" }

def stC5n : SavedState :=
  { newest_transaction := some "n", before := some "old", untilSig := none }

def stC5u : SavedState :=
  { newest_transaction := none, before := some "old", untilSig := some "u" }


/-- C2's concrete events: a delegation at `(slot, raw) = (10, 3)` and an
undelegation at `(8, 7)` for the same stake account. -/
def delC2 : Delegation :=
  { slot := 10, block_time := 0, stake_acc := "stake", vote_acc := some "vote",
    tx_signature := "t1", amount := 5, raw_instruction_idx := 3 }

def undC2 : Delegation :=
  { slot := 8, block_time := 0, stake_acc := "stake", vote_acc := some "vote",
    tx_signature := "t2", amount := 5, raw_instruction_idx := 7 }


/-- C9's concrete rewards: a fee reward (skipped by the analyzer loop) and
a staking reward. -/
def rewFeeC9 : Reward :=
  { pubkey := "leader", lamports := 5, post_balance := 9,
    reward_type := some RewardType.fee, commission := none }

def rewStakingC9 : Reward :=
  { pubkey := "stake", lamports := 11, post_balance := 20,
    reward_type := some RewardType.staking, commission := some 7 }


/-- `InstructionArgument::new` (`main_storage/mod.rs`): identifiers set,
everything else `Default::default()`. -/
def InstructionArgument.new (tx_signature : String) (instruction_idx : Nat)
    (inner_instructions_set : Option Nat) (program : String) :
    InstructionArgument :=
  { tx_signature := tx_signature, instruction_idx := instruction_idx,
    inner_instructions_set := inner_instructions_set, program := program }

mutual

/-- Number of leaves (rows emitted) of a `PathTree`. -/
def numLeaves : PathTree → Nat
  | .path entries => numLeavesEntries entries
  | _ => 1

def numLeavesEntries : List (String × PathTree) → Nat
  | [] => 0
  | (_, t) :: rest => numLeaves t + numLeavesEntries rest

end

mutual

/-- Number of `unit` leaves of a `PathTree`. -/
def numUnitLeaves : PathTree → Nat
  | .path entries => numUnitLeavesEntries entries
  | .unit => 1
  | _ => 0

def numUnitLeavesEntries : List (String × PathTree) → Nat
  | [] => 0
  | (_, t) :: rest => numUnitLeaves t + numUnitLeavesEntries rest

end

/-- How many of the four value columns of a row are populated. -/
def valueCount (a : InstructionArgument) : Nat :=
  (if a.int_value.isSome then 1 else 0) +
    (if a.unsigned_value.isSome then 1 else 0) +
    (if a.float_value.isSome then 1 else 0) +
    (if a.string_value.isSome then 1 else 0)

/-- All four value columns empty (the state of a freshly built default
argument row). -/
def emptyValues (a : InstructionArgument) : Prop :=
  a.int_value = none ∧ a.unsigned_value = none ∧ a.float_value = none ∧
    a.string_value = none

/-- The string begins with `'/'`. -/
def startsWithSlash (s : String) : Prop := s.data.head? = some '/'


/-- C8's concrete path tree (the shape of a decoded enum variant with two
fields). -/
def entC8 : List (String × PathTree) :=
  [("variant_3", PathTree.unit),
   ("variant_3", PathTree.path
      [("field1", PathTree.int 2), ("field2", PathTree.unit)])]


/-- C4's JSON oracle: the `Withdraw` payload `"wdata"` carries amount 1. -/
def jC4 : JsonU64 := fun data path =>
  if data = "wdata" ∧ path = ["Withdraw"] then some 1 else none

/-- C4's instructions: a `Withdraw` of 1 lamport from account `"A"` whose
running balance is 0, followed by a `Deactivate` of `"A"` that exposes the
underflowed balance in its event amount. -/
def instrC4W : Instruction :=
  { program := STAKE_PROGRAM_ADDRESS, tx_signature := "SIG",
    tx_status := .Success, slot := 1, block_time := 0, instruction_idx := 0,
    inner_instructions_set := none, transaction_instruction_idx := none,
    instruction_name := "Withdraw", accounts := [some "A", some "B"],
    data := "wdata" }

def instrC4D : Instruction :=
  { program := STAKE_PROGRAM_ADDRESS, tx_signature := "SIG",
    tx_status := .Success, slot := 1, block_time := 0, instruction_idx := 1,
    inner_instructions_set := none, transaction_instruction_idx := none,
    instruction_name := "Deactivate", accounts := [some "A", some "B"],
    data := "" }

def stC4 : DelegState :=
  { delegations := [], undelegations := [], previous_balance := [],
    vote_accounts := [] }


/-- C7's counterexample transaction: 2 account keys, one outer instruction
whose accounts list references index 1 a total of 257 times. -/
def txC7 : EncodedConfirmedTransactionWithStatusMeta :=
  { slot := 5,
    transaction :=
      { transaction := EncodedTransaction.json ["SIG"] (UiMessage.raw
          { account_keys := ["P", "Q"],
            instructions := [⟨0, List.replicate 257 1, ""⟩] }),
        meta := none },
    block_time := some 99 }

/-- C7's witness transaction: 257 account keys. -/
def txC7big : EncodedConfirmedTransactionWithStatusMeta :=
  { slot := 5,
    transaction :=
      { transaction := EncodedTransaction.json ["SIG"] (UiMessage.raw
          { account_keys := List.replicate 257 "K", instructions := [] }),
        meta := none },
    block_time := some 99 }


/-- C1's witness transaction: two outer instructions and two
inner-instruction groups with distinct indices 0 and 1 (two and one
compiled instructions respectively), all on the unknown program `Prog`. -/
def txC1 : EncodedConfirmedTransactionWithStatusMeta :=
  { slot := 5,
    transaction :=
      { transaction := EncodedTransaction.json ["SIG"] (UiMessage.raw
          { account_keys := ["Prog"],
            instructions := [⟨0, [], ""⟩, ⟨0, [], ""⟩] }),
        meta := some
          { status_is_ok := true, pre_balances := [0], post_balances := [0],
            pre_token_balances := none, post_token_balances := none,
            inner_instructions := some
              [⟨0, [UiInstruction.compiled ⟨0, [], ""⟩,
                    UiInstruction.compiled ⟨0, [], ""⟩]⟩,
               ⟨1, [UiInstruction.compiled ⟨0, [], ""⟩]⟩],
            loaded_addresses := none } },
    block_time := some 99 }


end SolanaIndexer

namespace SolanaIndexer

/-! ## Theorems -/

theorem insertBTree_eq_of_mem (x : Instruction) (l : List Instruction)
    (hs : SortedKeys l) (h : x.key ∈ keysOf l) : insertBTree x l = l := by
  induction l with
  | nil => simp [keysOf] at h
  | cons y ys ih =>
    unfold SortedKeys at hs
    rw [List.pairwise_cons] at hs
    obtain ⟨hy, hys⟩ := hs
    unfold insertBTree
    by_cases h1 : x.klt y
    · exfalso
      have hlt := (Instruction.klt_iff x y).mp h1
      simp only [keysOf, List.map_cons, List.mem_cons] at h
      rcases h with h | h
      · rw [h] at hlt; exact keyLt_irrefl _ hlt
      · obtain ⟨w, hw, hwk⟩ := List.mem_map.mp h
        have hxw := hy w hw
        rw [hwk] at hxw
        exact keyLt_irrefl _ (keyLt_trans hlt hxw)
    · by_cases h2 : x.peq y
      · simp [h1, h2]
      · have hk : x.key ≠ y.key := fun he => h2 ((Instruction.peq_iff x y).mpr he)
        simp only [keysOf, List.map_cons, List.mem_cons] at h
        rcases h with h | h
        · exact absurd h hk
        · simp [h1, h2, ih hys h]

set_option maxRecDepth 10000 in
/-- C10: `Instruction`'s ordering and equality are determined solely by the
pair `(slot, raw_instruction_idx)` — program, data, accounts and name are
ignored — so the `BTreeSet` used by `parse_transactions` keeps at most one
row per key (inserting an instruction whose key is present leaves the set
unchanged), and on the concrete transaction `txC10`, whose one outer and
two inner instructions produce the raw indices `0, 1, 1`, only 2 of the 3
rows survive: one row is silently dropped. -/
theorem c10_ord_eq_key_only_dedups_rows :
    (∀ a b : Instruction, a.peq b = true ↔ a.key = b.key) ∧
    (∀ a b : Instruction, a.klt b = true ↔ keyLt a.key b.key) ∧
    (∀ (x : Instruction) (set : List Instruction), SortedKeys set →
        x.key ∈ keysOf set → insertBTree x set = set) ∧
    instrCountOf (parse_transactions decZero txC10) = some 2 :=
  ⟨Instruction.peq_iff, Instruction.klt_iff, insertBTree_eq_of_mem, by rfl⟩

/-- Witness for C10 at concrete inputs: `instrKeyA` and `instrKeyB` differ
in program, name, data, block_time and accounts but share the key `(5,
256)`, and inserting the second into a set holding the first drops it. -/
theorem c10_ord_eq_key_only_dedups_rows_witness :
    instrKeyA.peq instrKeyB = true ∧
    SortedKeys [instrKeyA] ∧ instrKeyB.key ∈ keysOf [instrKeyA] ∧
    insertBTree instrKeyB [instrKeyA] = [instrKeyA] := by
  refine ⟨?_, ?_, ?_, ?_⟩
  · exact (c10_ord_eq_key_only_dedups_rows.1 instrKeyA instrKeyB).mpr (by rfl)
  · simp [SortedKeys]
  · decide
  · exact c10_ord_eq_key_only_dedups_rows.2.2.1 instrKeyB [instrKeyA]
      (by simp [SortedKeys]) (by decide)

theorem enumFrom_filter_first_accounts_empty (rest : List (Option String)) :
    ∀ n, 2 ≤ n →
      (List.enumFrom n rest).filter
        (fun p => p.2.isSome && decide (p.1 < FIRST_ACCOUNTS)) = [] := by
  induction rest with
  | nil => intro n _; rfl
  | cons a l ih =>
    intro n hn
    have hlt : ¬ (n < FIRST_ACCOUNTS) := by
      unfold FIRST_ACCOUNTS; omega
    have hcond : (a.isSome && decide (n < FIRST_ACCOUNTS)) = false := by
      simp [hlt]
    simp only [List.enumFrom, List.filter, hcond]
    exact ih (n + 1) (by omega)

/-- The global-position filter of `instructionsAccounts` only ever keeps
entries of the first two positions of the concatenated stream. -/
theorem instructionsAccounts_eq_take_two (instructions : List Instruction) :
    instructionsAccounts instructions =
      (((instructions.flatMap fun i => i.accounts).take 2).filterMap id) := by
  unfold instructionsAccounts
  generalize (instructions.flatMap fun i => i.accounts) = l
  match l with
  | [] => rfl
  | [a] =>
    cases a <;> simp [List.enum, List.enumFrom, List.filter, List.filterMap,
      FIRST_ACCOUNTS]
  | a :: b :: rest =>
    have hrest := enumFrom_filter_first_accounts_empty rest 2 (le_refl 2)
    have henum : (a :: b :: rest).enum =
        (0, a) :: (1, b) :: List.enumFrom 2 rest := by
      simp [List.enum, List.enumFrom]
    rw [henum, List.filter_cons, List.filter_cons, hrest]
    cases a <;> cases b <;> simp [FIRST_ACCOUNTS, List.filterMap]

set_option maxRecDepth 4000 in
/-- C3 counterexample: with two instructions, the second instruction's
non-empty `accounts[0]` (`"B"`) is *not* among the queried stake-account
candidates — the `enumerate` in `parse_delegations` runs over the
concatenation of all accounts arrays, so only global positions 0 and 1
(the first instruction's first two slots) pass the `i < FIRST_ACCOUNTS`
filter, contradicting "every instruction contributes its accounts[0] and
accounts[1] when non-empty". -/
theorem c3_counterexample_second_instruction_ignored :
    instrC3B.accounts.getD 0 none = some "B" ∧
    instructionsAccounts [instrC3A, instrC3B] = ["A"] ∧
    "B" ∉ instructionsAccounts [instrC3A, instrC3B] := by
  refine ⟨rfl, ?_, ?_⟩
  · decide
  · decide

/-- C3 amended: the stake-account candidate list contains exactly the
non-empty entries among the first two positions of the *concatenation* of
all instructions' accounts arrays; since every parsed instruction row
carries a 256-wide accounts array, this is at most the first instruction's
`accounts[0]` and `accounts[1]`, and later instructions contribute
nothing. -/
theorem c3_amended_only_first_instruction_candidates
    (i : Instruction) (rest : List Instruction)
    (hlen : 2 ≤ i.accounts.length) :
    instructionsAccounts (i :: rest) = (i.accounts.take 2).filterMap id := by
  rw [instructionsAccounts_eq_take_two]
  congr 1
  rw [List.flatMap_cons, List.take_append_of_le_length hlen]

set_option maxRecDepth 4000 in
/-- Witness for C3's amended theorem at the concrete two-instruction
input. -/
theorem c3_amended_only_first_instruction_candidates_witness :
    2 ≤ instrC3A.accounts.length ∧
    instructionsAccounts [instrC3A, instrC3B] =
      (instrC3A.accounts.take 2).filterMap id := by
  constructor
  · decide
  · exact c3_amended_only_first_instruction_candidates instrC3A [instrC3B]
      (by decide)

/-- C5 counterexample: on a non-empty batch of length 1 the cursor's
`before` is set to the batch's only — hence *last* — signature (the code
uses `len.saturating_sub(2) = 0`), while the signature "at index len-2
(the penultimate)" does not exist: no index `i` satisfies `i + 2 = 1`.
The claim's gap-avoidance reading (the last signature is left to be
re-read) is violated at this input. -/
theorem c5_counterexample_len_one_batch :
    (processBatch stC5 ["s1"]).before = some "s1" ∧
    (["s1"] : List String).getLast? = some "s1" ∧
    ∀ i : Nat, i + 2 ≠ (["s1"] : List String).length := by
  refine ⟨rfl, rfl, ?_⟩
  intro i
  simp only [List.length_cons, List.length_nil]
  omega

/-- C5 amended: on every non-empty batch the cursor's `before` becomes the
signature at index `len.saturating_sub(2)` — the penultimate one when
`len ≥ 2`, the sole signature when `len = 1` — unless the batch contains
the cursor's `until` signature, in which case the sweep terminates:
`until` is set to `newest_transaction` (the batch head if it was unset)
and both `before` and `newest_transaction` are cleared before
persisting. -/
theorem c5_amended_before_saturating_and_sweep_end
    (st : SavedState) (sigs : List String) (hne : sigs ≠ []) :
    (sigs.contains (st.untilSig.getD DEFAULT_SIGNATURE) = false →
      (processBatch st sigs).before =
        some (sigs.getD (sigs.length - 2) (sigs.headD ""))) ∧
    (∀ u, st.untilSig = some u → sigs.contains u = true →
      (processBatch st sigs).untilSig =
          some (st.newest_transaction.getD (sigs.headD "")) ∧
      (processBatch st sigs).before = none ∧
      (processBatch st sigs).newest_transaction = none) := by
  match sigs, hne with
  | s0 :: rest, _ =>
    unfold processBatch
    cases hnw : st.newest_transaction with
    | none =>
      constructor
      · intro hcon
        simp only [hnw, hcon, Bool.false_eq_true, if_false, List.headD_cons]
      · intro u hu hcon
        have : st.untilSig.getD DEFAULT_SIGNATURE = u := by rw [hu]; rfl
        simp only [hnw, this, hcon, if_true, List.headD_cons]
        refine ⟨?_, ?_, ?_⟩ <;> simp
    | some n =>
      constructor
      · intro hcon
        simp only [hnw, hcon, Bool.false_eq_true, if_false, List.headD_cons]
      · intro u hu hcon
        have : st.untilSig.getD DEFAULT_SIGNATURE = u := by rw [hu]; rfl
        simp only [hnw, this, hcon, if_true, List.headD_cons]
        refine ⟨?_, ?_, ?_⟩ <;> simp

/-- Witness for C5's amended theorem: a 3-signature batch without `until`
sets `before` to the penultimate `"s2"`; a batch containing `until = "u"`
ends the sweep. -/
theorem c5_amended_before_saturating_and_sweep_end_witness :
    (processBatch stC5n ["s1", "s2", "s3"]).before = some "s2" ∧
    (processBatch stC5u ["s1", "u"]).untilSig = some "s1" ∧
    (processBatch stC5u ["s1", "u"]).before = none ∧
    (processBatch stC5u ["s1", "u"]).newest_transaction = none := by
  have h1 := (c5_amended_before_saturating_and_sweep_end stC5n
    ["s1", "s2", "s3"] (by simp)).1 (by decide)
  have h2 := (c5_amended_before_saturating_and_sweep_end stC5u
    ["s1", "u"] (by simp)).2 "u" rfl (by decide)
  exact ⟨h1, h2.1, h2.2.1, h2.2.2⟩

theorem keyLt_asymm {a b : Nat × Nat} (h : keyLt a b) : ¬ keyLt b a :=
  fun h2 => keyLt_irrefl a (keyLt_trans h h2)

theorem top1_eq_none_iff (l : List Delegation) : top1 l = none ↔ l = [] := by
  cases l with
  | nil => simp [top1]
  | cons r rs =>
    simp only [top1]
    cases top1 rs with
    | none => simp
    | some b =>
      dsimp only
      split <;> simp

theorem top1_mem {l : List Delegation} {b : Delegation}
    (h : top1 l = some b) : b ∈ l := by
  induction l generalizing b with
  | nil => simp [top1] at h
  | cons r rs ih =>
    simp only [top1] at h
    cases hr : top1 rs with
    | none => rw [hr] at h; simp at h; simp [h]
    | some b' =>
      rw [hr] at h
      dsimp only at h
      by_cases hlt : keyLt (eventKey b') (eventKey r)
      · rw [if_pos hlt] at h
        simp at h
        simp [h]
      · rw [if_neg hlt] at h
        simp at h
        subst h
        exact List.mem_cons_of_mem r (ih hr)

theorem top1_of_strict_max {l : List Delegation} {x : Delegation}
    (hx : x ∈ l)
    (hmax : ∀ y ∈ l, y ≠ x → keyLt (eventKey y) (eventKey x)) :
    top1 l = some x := by
  induction l with
  | nil => simp at hx
  | cons r rs ih =>
    rcases List.mem_cons.mp hx with rfl | hx'
    · simp only [top1]
      cases hr : top1 rs with
      | none => rfl
      | some b =>
        dsimp only
        have hb : b ∈ rs := top1_mem hr
        by_cases hbx : b = x
        · subst hbx
          rw [if_neg (keyLt_irrefl _)]
        · have hblt := hmax b (List.mem_cons_of_mem x hb) hbx
          rw [if_pos hblt]
    · by_cases hrx : r = x
      · subst hrx
        simp only [top1]
        cases hr : top1 rs with
        | none => rfl
        | some b =>
          dsimp only
          have hb : b ∈ rs := top1_mem hr
          by_cases hbx : b = r
          · subst hbx
            rw [if_neg (keyLt_irrefl _)]
          · exact (by rw [if_pos (hmax b (List.mem_cons_of_mem r hb) hbx)])
      · have hih := ih hx' (fun y hy hne =>
          hmax y (List.mem_cons_of_mem r hy) hne)
        simp only [top1, hih]
        have hrlt := hmax r (List.mem_cons_self r rs) hrx
        rw [if_neg (keyLt_asymm hrlt)]

/-- C2: the historical binding lookup, under no key ties among the stake
account's events at or before the slot: (1) with no delegation event and no
undelegation event at or before `slot` it returns `none`; (2) when a
delegation event `d` is strictly greatest — above every other delegation
event and every undelegation event in the `(slot, raw_instruction_idx)`
order — it returns `d`'s `vote_acc`; (3) when an undelegation event is
strictly greatest it returns `none`. -/
theorem c2_lookup_vote_acc_last_event_decides
    (dels unds : List Delegation) (slot : Nat) (stake_acc : String) :
    (matchingEvents dels stake_acc slot = [] →
      lookup_vote_acc dels unds slot stake_acc = none) ∧
    (∀ d ∈ matchingEvents dels stake_acc slot,
      (∀ e ∈ matchingEvents dels stake_acc slot, e ≠ d →
        keyLt (eventKey e) (eventKey d)) →
      (∀ e ∈ matchingEvents unds stake_acc slot,
        keyLt (eventKey e) (eventKey d)) →
      lookup_vote_acc dels unds slot stake_acc = d.vote_acc) ∧
    (∀ u ∈ matchingEvents unds stake_acc slot,
      (∀ e ∈ matchingEvents unds stake_acc slot, e ≠ u →
        keyLt (eventKey e) (eventKey u)) →
      (∀ e ∈ matchingEvents dels stake_acc slot,
        keyLt (eventKey e) (eventKey u)) →
      lookup_vote_acc dels unds slot stake_acc = none) := by
  refine ⟨?_, ?_, ?_⟩
  · intro hde
    unfold lookup_vote_acc
    rw [(top1_eq_none_iff _).mpr hde]
  · intro d hd hdmax humax
    unfold lookup_vote_acc
    rw [top1_of_strict_max hd hdmax]
    cases hu : top1 (matchingEvents unds stake_acc slot) with
    | none => rfl
    | some u =>
      dsimp only
      have hult := humax u (top1_mem hu)
      rw [if_neg (keyLt_asymm hult)]
  · intro u hu humax hdmax
    unfold lookup_vote_acc
    cases hd : top1 (matchingEvents dels stake_acc slot) with
    | none => rfl
    | some dd =>
      rw [top1_of_strict_max hu humax]
      dsimp only
      have hdlt := hdmax dd (top1_mem hd)
      rw [if_pos hdlt]

/-- Witness for C2 at the concrete event tables: the greatest event at or
before slot 20 for `"stake"` is the delegation `delC2`, so the lookup
returns its `vote_acc = some "vote"`. -/
theorem c2_lookup_vote_acc_last_event_decides_witness :
    delC2 ∈ matchingEvents [delC2] "stake" 20 ∧
    lookup_vote_acc [delC2] [undC2] 20 "stake" = some "vote" := by
  have h := (c2_lookup_vote_acc_last_event_decides [delC2] [undC2]
    20 "stake").2.1 delC2 (by decide)
    (by intro e he hne; simp [matchingEvents, delC2] at he; exact absurd he hne)
    (by intro e he; simp [matchingEvents, undC2] at he; subst he; decide)
  exact ⟨by decide, h⟩

theorem collectEpochRewards_eq (dels unds : List Delegation) (epoch : Nat)
    (fbs : Nat) (bt : Int) (rewards : List Reward) :
    collectEpochRewards dels unds epoch (some fbs) bt rewards =
      some (rewards.filterMap fun reward =>
        match reward.reward_type with
        | some RewardType.staking =>
          some ((lookup_vote_acc dels unds fbs reward.pubkey).getD "",
            epoch, some fbs, reward, bt)
        | some RewardType.voting => some ("", epoch, some fbs, reward, bt)
        | _ => none) := by
  unfold collectEpochRewards
  suffices h : ∀ acc, List.foldlM
      (fun acc reward =>
        match reward.reward_type with
        | some RewardType.staking =>
          match (some fbs : Option Nat) with
          | none => none
          | some fbs =>
            let vote_acc := (lookup_vote_acc dels unds fbs reward.pubkey).getD ""
            some (acc ++ [(vote_acc, epoch, some fbs, reward, bt)])
        | some RewardType.voting =>
          some (acc ++ [("", epoch, some fbs, reward, bt)])
        | _ => some acc)
      acc rewards = some (acc ++ rewards.filterMap fun reward =>
        match reward.reward_type with
        | some RewardType.staking =>
          some ((lookup_vote_acc dels unds fbs reward.pubkey).getD "",
            epoch, some fbs, reward, bt)
        | some RewardType.voting => some ("", epoch, some fbs, reward, bt)
        | _ => none) by
    simpa using h []
  induction rewards with
  | nil => intro acc; simp [List.foldlM]
  | cons reward rest ih =>
    intro acc
    rcases hrt : reward.reward_type with - | rt
    · simpa [List.foldlM, hrt, List.filterMap_cons] using ih acc
    · cases rt <;>
        simp [List.foldlM, hrt, List.filterMap_cons, ih]

/-- C9 counterexample: a fee-type reward in the epoch's first block is not
inserted at all — `RewardsAnalyzer::run` only handles `Staking` and
`Voting` reward types and silently skips every other reward — so "every
reward in the epoch's first block's rewards array is inserted" fails. -/
theorem c9_counterexample_fee_reward_skipped :
    analyzeEpochRewards [] [] 7 (some 100) 50 [rewFeeC9] = some [] ∧
    rewFeeC9.reward_type = some RewardType.fee := ⟨rfl, rfl⟩

/-- C9 amended: every reward of type staking or voting is inserted with
`epoch = epoch − 1` (wrapping u64 subtraction), staking rewards with the
vote account resolved by the historical lookup at the epoch's first block
slot (empty string when unresolved), voting rewards with an empty vote
account; fee, rent and untyped rewards are skipped. -/
theorem c9_amended_staking_voting_rewards_inserted
    (dels unds : List Delegation) (epoch : Nat) (fbs : Nat) (bt : Int)
    (rewards : List Reward) :
    analyzeEpochRewards dels unds epoch (some fbs) bt rewards =
      some (rewards.filterMap fun reward =>
        match reward.reward_type with
        | some RewardType.staking =>
          some { vote_account :=
                   (lookup_vote_acc dels unds fbs reward.pubkey).getD ""
                 epoch := u64subWrap epoch 1
                 pubkey := reward.pubkey
                 lamports := reward.lamports
                 post_balance := reward.post_balance
                 reward_type := some "staking"
                 commission := reward.commission
                 first_block_slot := some fbs
                 block_time := intToU32 bt }
        | some RewardType.voting =>
          some { vote_account := ""
                 epoch := u64subWrap epoch 1
                 pubkey := reward.pubkey
                 lamports := reward.lamports
                 post_balance := reward.post_balance
                 reward_type := some "voting"
                 commission := reward.commission
                 first_block_slot := some fbs
                 block_time := intToU32 bt }
        | _ => none) := by
  unfold analyzeEpochRewards
  rw [collectEpochRewards_eq]
  simp only [Option.map_some']
  congr 1
  unfold store_rewards_block
  rw [List.map_filterMap]
  apply List.filterMap_congr
  intro reward _
  rcases hrt : reward.reward_type with - | rt
  · simp
  · cases rt <;> simp [rewardTypeName, hrt]
theorem startsWithSlash_append (s t : String) (h : startsWithSlash s) :
    startsWithSlash (s ++ t) := by
  unfold startsWithSlash at *
  rw [String.data_append]
  cases hd : s.data with
  | nil => rw [hd] at h; simp at h
  | cons c cs => rw [hd] at h; simp at h; simp [h]

theorem range'_append_one (s m n : Nat) :
    List.range' s m ++ List.range' (s + m) n = List.range' s (m + n) := by
  induction m generalizing s with
  | zero => simp
  | succ k ih =>
    rw [List.range'_succ, List.cons_append,
      show s + (k + 1) = (s + 1) + k by omega, ih (s + 1),
      show k + 1 + n = (k + n) + 1 by omega, List.range'_succ]

theorem emptyValues_mock (dflt : InstructionArgument) (p : String)
    (h : emptyValues dflt) : emptyValues { dflt with arg_path := p } := h

mutual

theorem getArgs_flatten_spec (t : PathTree) (acc : List InstructionArgument)
    (dflt : InstructionArgument) (i : Nat) :
    ∃ rows,
      (getInstructionArgsVec t acc dflt i).1 = acc ++ rows ∧
      (getInstructionArgsVec t acc dflt i).2 = i + numLeaves t ∧
      rows.map (fun a => a.arg_idx) = List.range' i (numLeaves t) ∧
      (emptyValues dflt →
        (∀ a ∈ rows, valueCount a ≤ 1) ∧
        (rows.filter fun a => valueCount a == 0).length = numUnitLeaves t) ∧
      (startsWithSlash dflt.arg_path →
        ∀ a ∈ rows, startsWithSlash a.arg_path) := by
  cases t with
  | string s =>
    refine ⟨[{ dflt with string_value := some s, arg_idx := i }], ?_, ?_, ?_, ?_, ?_⟩
    · rfl
    · rfl
    · simp [numLeaves]
    · rintro ⟨h1, h2, h3, h4⟩
      constructor
      · intro a ha
        simp at ha
        subst ha
        simp [valueCount, h1, h2, h3]
      · simp [List.filter, valueCount, h1, h2, h3, numUnitLeaves]
    · intro hs a ha
      simp at ha
      subst ha
      exact hs
  | int v =>
    refine ⟨[{ dflt with int_value := some v, arg_idx := i }], ?_, ?_, ?_, ?_, ?_⟩
    · rfl
    · rfl
    · simp [numLeaves]
    · rintro ⟨h1, h2, h3, h4⟩
      constructor
      · intro a ha
        simp at ha
        subst ha
        simp [valueCount, h2, h3, h4]
      · simp [List.filter, valueCount, h2, h3, h4, numUnitLeaves]
    · intro hs a ha
      simp at ha
      subst ha
      exact hs
  | unsigned v =>
    refine ⟨[{ dflt with unsigned_value := some v, arg_idx := i }], ?_, ?_, ?_, ?_, ?_⟩
    · rfl
    · rfl
    · simp [numLeaves]
    · rintro ⟨h1, h2, h3, h4⟩
      constructor
      · intro a ha
        simp at ha
        subst ha
        simp [valueCount, h1, h3, h4]
      · simp [List.filter, valueCount, h1, h3, h4, numUnitLeaves]
    · intro hs a ha
      simp at ha
      subst ha
      exact hs
  | float v =>
    refine ⟨[{ dflt with float_value := some v, arg_idx := i }], ?_, ?_, ?_, ?_, ?_⟩
    · rfl
    · rfl
    · simp [numLeaves]
    · rintro ⟨h1, h2, h3, h4⟩
      constructor
      · intro a ha
        simp at ha
        subst ha
        simp [valueCount, h1, h2, h4]
      · simp [List.filter, valueCount, h1, h2, h4, numUnitLeaves]
    · intro hs a ha
      simp at ha
      subst ha
      exact hs
  | unit =>
    refine ⟨[{ dflt with arg_idx := i }], ?_, ?_, ?_, ?_, ?_⟩
    · rfl
    · rfl
    · simp [numLeaves]
    · rintro ⟨h1, h2, h3, h4⟩
      constructor
      · intro a ha
        simp at ha
        subst ha
        simp [valueCount, h1, h2, h3, h4]
      · simp [List.filter, valueCount, h1, h2, h3, h4, numUnitLeaves]
    · intro hs a ha
      simp at ha
      subst ha
      exact hs
  | path entries =>
    have h := getArgsEntries_flatten_spec entries acc dflt i
    obtain ⟨rows, hout, hidx, hmap, hval, hslash⟩ := h
    refine ⟨rows, hout, by simpa [numLeaves] using hidx,
      by simpa [numLeaves] using hmap, ?_, ?_⟩
    · intro he
      obtain ⟨hv1, hv2⟩ := hval he
      exact ⟨hv1, by simpa [numUnitLeaves] using hv2⟩
    · intro hs
      exact hslash (Or.inl hs)

theorem getArgsEntries_flatten_spec (entries : List (String × PathTree))
    (acc : List InstructionArgument) (dflt : InstructionArgument) (i : Nat) :
    ∃ rows,
      (getArgsEntries entries acc dflt i).1 = acc ++ rows ∧
      (getArgsEntries entries acc dflt i).2 = i + numLeavesEntries entries ∧
      rows.map (fun a => a.arg_idx) =
        List.range' i (numLeavesEntries entries) ∧
      (emptyValues dflt →
        (∀ a ∈ rows, valueCount a ≤ 1) ∧
        (rows.filter fun a => valueCount a == 0).length =
          numUnitLeavesEntries entries) ∧
      ((startsWithSlash dflt.arg_path ∨
          (dflt.arg_path = "" ∧ ∀ p ∈ entries, p.1 ≠ "")) →
        ∀ a ∈ rows, startsWithSlash a.arg_path) := by
  match entries with
  | [] =>
    refine ⟨[], ?_, ?_, ?_, ?_, ?_⟩
    · simp [getArgsEntries]
    · simp [getArgsEntries, numLeavesEntries]
    · simp [numLeavesEntries]
    · intro _
      exact ⟨by simp, by simp [numUnitLeavesEntries]⟩
    · intro _ a ha
      simp at ha
  | (field_name, t) :: rest =>
    have hmockdef :
        (getArgsEntries ((field_name, t) :: rest) acc dflt i) =
          (getArgsEntries rest
            (getInstructionArgsVec t acc
              (if ¬ field_name = "" ∨ i = 0 then
                { dflt with arg_path := dflt.arg_path ++ "/" ++ field_name }
               else dflt) i).1 dflt
            (getInstructionArgsVec t acc
              (if ¬ field_name = "" ∨ i = 0 then
                { dflt with arg_path := dflt.arg_path ++ "/" ++ field_name }
               else dflt) i).2) := by
      rw [getArgsEntries]
    set mock := (if ¬ field_name = "" ∨ i = 0 then
        { dflt with arg_path := dflt.arg_path ++ "/" ++ field_name }
      else dflt) with hmock
    obtain ⟨rows1, hout1, hidx1, hmap1, hval1, hslash1⟩ :=
      getArgs_flatten_spec t acc mock i
    obtain ⟨rows2, hout2, hidx2, hmap2, hval2, hslash2⟩ :=
      getArgsEntries_flatten_spec rest
        (getInstructionArgsVec t acc mock i).1 dflt
        (getInstructionArgsVec t acc mock i).2
    refine ⟨rows1 ++ rows2, ?_, ?_, ?_, ?_, ?_⟩
    · rw [hmockdef, hout2, hout1, List.append_assoc]
    · rw [hmockdef, hidx2, hidx1, numLeavesEntries]
      omega
    · rw [List.map_append, hmap1, hmap2, hidx1, numLeavesEntries]
      exact range'_append_one i (numLeaves t) (numLeavesEntries rest)
    · intro he
      have hem : emptyValues mock := by
        rw [hmock]
        split
        · exact he
        · exact he
      obtain ⟨ha1, ha2⟩ := hval1 hem
      obtain ⟨hb1, hb2⟩ := hval2 he
      constructor
      · intro a ha
        rcases List.mem_append.mp ha with h | h
        · exact ha1 a h
        · exact hb1 a h
      · rw [List.filter_append, List.length_append, ha2, hb2,
          numUnitLeavesEntries]
    · intro hcond a ha
      have hslashmock : startsWithSlash dflt.arg_path →
          startsWithSlash mock.arg_path := by
        intro hs
        rw [hmock]
        split
        · exact startsWithSlash_append _ _ (startsWithSlash_append _ _ hs)
        · exact hs
      rcases List.mem_append.mp ha with h | h
      · rcases hcond with hs | ⟨hemp, hnames⟩
        · exact hslash1 (hslashmock hs) a h
        · have hname : field_name ≠ "" :=
            hnames (field_name, t) (List.mem_cons_self _ _)
          have : startsWithSlash mock.arg_path := by
            rw [hmock, if_pos (Or.inl hname)]
            show startsWithSlash (dflt.arg_path ++ "/" ++ field_name)
            rw [hemp]
            unfold startsWithSlash
            rw [String.data_append, String.data_append]
            rfl
          exact hslash1 this a h
      · rcases hcond with hs | ⟨hemp, hnames⟩
        · exact hslash2 (Or.inl hs) a h
        · exact hslash2 (Or.inr ⟨hemp, fun p hp =>
            hnames p (List.mem_cons_of_mem _ hp)⟩) a h

end



/-- C8: for every decoded instruction's argument tree — a root `path` node
whose top-level names are non-empty, which is what the derive-generated
decoders always produce — flattening from a freshly initialized default
row yields: `arg_idx` dense from 0 to (number of leaves − 1) in pre-order,
every `arg_path` beginning with `'/'`, every row populating at most one of
the four value columns, and exactly the unit leaves populating none. -/
theorem c8_flatten_dense_slash_single_value
    (entries : List (String × PathTree)) (hnames : ∀ p ∈ entries, p.1 ≠ "")
    (sig : String) (idx : Nat) (iis : Option Nat) (prog : String) :
    ((getInstructionArgsVec (.path entries) []
        (InstructionArgument.new sig idx iis prog) 0).1.map
      (fun a => a.arg_idx)) = List.range' 0 (numLeaves (.path entries)) ∧
    (∀ a ∈ (getInstructionArgsVec (.path entries) []
        (InstructionArgument.new sig idx iis prog) 0).1,
      startsWithSlash a.arg_path) ∧
    (∀ a ∈ (getInstructionArgsVec (.path entries) []
        (InstructionArgument.new sig idx iis prog) 0).1,
      valueCount a ≤ 1) ∧
    ((getInstructionArgsVec (.path entries) []
        (InstructionArgument.new sig idx iis prog) 0).1.filter
      (fun a => valueCount a == 0)).length = numUnitLeaves (.path entries) ∧
    (getInstructionArgsVec (.path entries) []
        (InstructionArgument.new sig idx iis prog) 0).2 =
      numLeaves (.path entries) := by
  have hArgs : getInstructionArgsVec (.path entries) []
      (InstructionArgument.new sig idx iis prog) 0 =
      getArgsEntries entries [] (InstructionArgument.new sig idx iis prog) 0 := by
    rw [getInstructionArgsVec]
  obtain ⟨rows, hout, hidx, hmap, hval, hslash⟩ :=
    getArgsEntries_flatten_spec entries []
      (InstructionArgument.new sig idx iis prog) 0
  have hrows : (getArgsEntries entries []
      (InstructionArgument.new sig idx iis prog) 0).1 = rows := by
    rw [hout]; rfl
  have hempty : emptyValues (InstructionArgument.new sig idx iis prog) :=
    ⟨rfl, rfl, rfl, rfl⟩
  obtain ⟨hv1, hv2⟩ := hval hempty
  have hsl := hslash (Or.inr ⟨rfl, hnames⟩)
  refine ⟨?_, ?_, ?_, ?_, ?_⟩
  · rw [hArgs, hrows, hmap]
    simp [numLeaves]
  · intro a ha
    rw [hArgs, hrows] at ha
    exact hsl a ha
  · intro a ha
    rw [hArgs, hrows] at ha
    exact hv1 a ha
  · rw [hArgs, hrows, hv2]
    simp [numUnitLeaves]
  · rw [hArgs, hidx]
    simp [numLeaves]

/-- Witness for C8 at the concrete tree `entC8` (3 leaves, 2 of them
units). -/
theorem c8_flatten_dense_slash_single_value_witness :
    (∀ p ∈ entC8, p.1 ≠ "") ∧
    ((getInstructionArgsVec (.path entC8) []
        (InstructionArgument.new "123" 0 none "program") 0).1.map
      (fun a => a.arg_idx)) = List.range' 0 (numLeaves (.path entC8)) ∧
    (∀ a ∈ (getInstructionArgsVec (.path entC8) []
        (InstructionArgument.new "123" 0 none "program") 0).1,
      startsWithSlash a.arg_path) := by
  have hnames : ∀ p ∈ entC8, p.1 ≠ "" := by
    intro p hp
    simp only [entC8, List.mem_cons, List.mem_singleton] at hp
    rcases hp with rfl | rfl | h
    · simp
    · simp
    · simp at h
  have h := c8_flatten_dense_slash_single_value entC8 hnames "123" 0 none
    "program"
  exact ⟨hnames, h.1, h.2.1⟩

/-- C4 counterexample: the `Withdraw` arm's balance decrement is an
unchecked `-=`, not a saturating subtraction.  Withdrawing 1 lamport from
an account with running balance 0 wraps the balance to `2^64 − 1` (a debug
build would panic on this underflow), and the following `Deactivate` emits
an undelegation of amount `2^64 − 1 − 2_282_880`; under the claimed
all-saturating semantics the amount would be 0. -/
theorem c4_counterexample_withdraw_subtraction_not_saturating :
    (parse_delegations jC4 (fun _ => []) [instrC4W, instrC4D] []).map
      (fun t => t.2.1.map (fun d => d.amount)) = some [18446744073707268735] ∧
    (parse_delegations_saturating jC4 (fun _ => [])
        [instrC4W, instrC4D] []).map
      (fun t => t.2.1.map (fun d => d.amount)) = some [0] ∧
    parse_delegations jC4 (fun _ => []) [instrC4W, instrC4D] [] ≠
      parse_delegations_saturating jC4 (fun _ => []) [instrC4W, instrC4D] [] := by
  refine ⟨by decide, by decide, ?_⟩
  intro h
  have h2 := congrArg
    (fun r => r.map (fun t => t.2.1.map (fun d => d.amount))) h
  simp only at h2
  rw [show (parse_delegations jC4 (fun _ => []) [instrC4W, instrC4D] []).map
      (fun t => t.2.1.map (fun d => d.amount)) = some [18446744073707268735]
    from by decide, show (parse_delegations_saturating jC4 (fun _ => [])
      [instrC4W, instrC4D] []).map
      (fun t => t.2.1.map (fun d => d.amount)) = some [0] from by decide] at h2
  simp at h2

/-- C4 amended: only the `Split` arm's balance decrement (and the event
amounts) use saturating subtraction; the `Withdraw` and `Transfer`
decrements are unchecked `u64` subtractions.  Concretely: (1) every loop
step whose instruction is not `Withdraw` or `Transfer` behaves identically
under the source semantics and the all-saturating semantics, and (2) the
unchecked subtraction agrees with the saturating one exactly when it does
not underflow (`b ≤ a` with `a` in `u64` range). -/
theorem c4_amended_only_split_saturates
    (j : JsonU64) (pre : List (String × Nat)) (st : DelegState)
    (instr : Instruction) (hw : instr.instruction_name ≠ "Withdraw")
    (ht : instr.instruction_name ≠ "Transfer") :
    delegationStepWith u64subWrap j pre st instr =
      delegationStepWith (· - ·) j pre st instr ∧
    (∀ a b : Nat, b ≤ a → a < 18446744073709551616 → u64subWrap a b = a - b) := by
  constructor
  · unfold delegationStepWith
    split
    · rfl
    · cases h0 : instr.accounts.getD 0 none with
      | none => rfl
      | some a0 =>
        cases h1 : instr.accounts.getD 1 none with
        | none => rfl
        | some a1 =>
          simp only [Option.bind_eq_bind, Option.some_bind]
          split
          · rfl
          · rfl
          · rfl
          · simp_all
          · simp_all
          · rfl
          · rfl
          · rfl
          · rfl
  · intro a b hba ha
    unfold u64subWrap
    omega

/-- Witness for C4's amended theorem: a `Deactivate` step runs identically
under both semantics, and `u64subWrap 5 3 = 5 - 3`. -/
theorem c4_amended_only_split_saturates_witness :
    delegationStepWith u64subWrap jC4 [] stC4 instrC4D =
      delegationStepWith (· - ·) jC4 [] stC4 instrC4D ∧
    u64subWrap 5 3 = 5 - 3 := by
  have h := c4_amended_only_split_saturates jC4 [] stC4 instrC4D
    (by decide) (by decide)
  exact ⟨h.1, h.2 5 3 (by decide) (by decide)⟩

theorem except_bind_error {ε α β : Type} (e : ε) (f : α → Except ε β) :
    (Except.error e >>= f) = Except.error e := rfl

theorem except_bind_ok {ε α β : Type} (a : α) (f : α → Except ε β) :
    (Except.ok a >>= f) = f a := rfl

theorem resizeAccounts_length (l : List (Option String)) :
    (resizeAccounts l).length = ACCOUNTS_ARRAY_SIZE := by
  unfold resizeAccounts ACCOUNTS_ARRAY_SIZE
  simp only [List.length_append, List.length_take, List.length_replicate]
  omega

theorem buildOuterRow_ok {d : Decoders} {k : Nat} {c : UiCompiledInstruction}
    {accounts : List String} {sig : String} {slot bt : Nat} {st : TxStatus}
    {instr : Instruction} {newArgs : List InstructionArgument}
    (h : buildOuterRow d k c accounts sig slot bt st = .ok (instr, newArgs)) :
    instr.slot = slot ∧
    instr.instruction_idx = k % 256 ∧
    instr.transaction_instruction_idx = none ∧
    instr.tx_signature = sig ∧
    instr.block_time = bt ∧
    instr.tx_status = st ∧
    (∃ resolved, resolveInstructionAccounts "instruction" accounts
        c.accounts = .ok resolved ∧
      instr.accounts = resizeAccounts resolved) ∧
    (∃ pa, accounts.get? c.program_id_index = some pa ∧ instr.program = pa ∧
      (pa ∉ knownPrograms →
        instr.data = c.data ∧ newArgs = [] ∧
        instructionNameOf c.data = .ok instr.instruction_name)) ∧
    (∀ a ∈ newArgs, a.instruction_idx = k % 256 ∧
      a.inner_instructions_set = none) := by
  unfold buildOuterRow at h
  cases hpa : accounts.get? c.program_id_index with
  | none =>
    rw [hpa] at h
    simp only [except_bind_error, except_bind_ok] at h
    exact Except.noConfusion h
  | some pa =>
    rw [hpa] at h
    simp only [except_bind_error, except_bind_ok] at h
    cases hres : resolveInstructionAccounts "instruction" accounts c.accounts with
    | error e =>
      rw [hres] at h
      simp only [except_bind_error, except_bind_ok] at h
      exact Except.noConfusion h
    | ok resolved =>
      rw [hres] at h
      simp only [except_bind_error, except_bind_ok] at h
      cases hb58 : from_base58 c.data with
      | error e =>
        rw [hb58] at h
        simp only [except_bind_error, except_bind_ok] at h
        exact Except.noConfusion h
      | ok bytes =>
        rw [hb58] at h
        simp only [except_bind_error, except_bind_ok] at h
        by_cases hknown : pa ∈ knownPrograms
        · rw [show parse_instruction d pa bytes = d pa bytes from by
            unfold parse_instruction; rw [if_pos hknown]] at h
          cases hd : d pa bytes with
          | error e =>
            rw [hd] at h
            cases e <;> simp only [except_bind_error, except_bind_ok] at h <;>
              try exact Except.noConfusion h
            -- remaining: ProgramAddressMatchError, downgraded.
            cases hname : instructionNameOf c.data with
            | error e2 =>
              rw [hname] at h
              simp only [except_bind_error, except_bind_ok] at h
              exact Except.noConfusion h
            | ok name =>
              rw [hname] at h
              simp only [except_bind_error, except_bind_ok] at h
              rw [if_neg (by simp [resizeAccounts_length])] at h
              injection h with hpair
              rw [Prod.mk.injEq] at hpair
              obtain ⟨hinstr, hargs⟩ := hpair
              subst hinstr
              subst hargs
              refine ⟨rfl, rfl, rfl, rfl, rfl, rfl, ⟨resolved, rfl, rfl⟩,
                ⟨pa, rfl, rfl, fun hnk => absurd hknown hnk⟩, ?_⟩
              intro a ha
              simp at ha
          | ok pd =>
            rw [hd] at h
            simp only [except_bind_error, except_bind_ok] at h
            cases hname : instructionNameOf pd.1 with
            | error e2 =>
              rw [hname] at h
              simp only [except_bind_error, except_bind_ok] at h
              exact Except.noConfusion h
            | ok name =>
              rw [hname] at h
              simp only [except_bind_error, except_bind_ok] at h
              rw [if_neg (by simp [resizeAccounts_length])] at h
              injection h with hpair
              rw [Prod.mk.injEq] at hpair
              obtain ⟨hinstr, hargs⟩ := hpair
              subst hinstr
              subst hargs
              refine ⟨rfl, rfl, rfl, rfl, rfl, rfl, ⟨resolved, rfl, rfl⟩,
                ⟨pa, rfl, rfl, fun hnk => absurd hknown hnk⟩, ?_⟩
              intro a ha
              obtain ⟨b, _, hb⟩ := List.mem_map.mp ha
              rw [← hb]
              exact ⟨rfl, rfl⟩
        · rw [show parse_instruction d pa bytes =
              .error .ProgramAddressMatchError from by
            unfold parse_instruction; rw [if_neg hknown]] at h
          simp only [except_bind_error, except_bind_ok] at h
          cases hname : instructionNameOf c.data with
          | error e2 =>
            rw [hname] at h
            simp only [except_bind_error, except_bind_ok] at h
            exact Except.noConfusion h
          | ok name =>
            rw [hname] at h
            simp only [except_bind_error, except_bind_ok] at h
            rw [if_neg (by simp [resizeAccounts_length])] at h
            injection h with hpair
            rw [Prod.mk.injEq] at hpair
            obtain ⟨hinstr, hargs⟩ := hpair
            subst hinstr
            subst hargs
            refine ⟨rfl, rfl, rfl, rfl, rfl, rfl, ⟨resolved, rfl, rfl⟩,
              ⟨pa, rfl, rfl, fun _ => ⟨rfl, by simp, rfl⟩⟩, ?_⟩
            intro a ha
            simp at ha

theorem buildInnerRow_ok {d : Decoders} {gi gIndex j : Nat}
    {c : UiCompiledInstruction} {accounts : List String} {sig : String}
    {slot bt : Nat} {st : TxStatus} {instr : Instruction}
    {newArgs : List InstructionArgument}
    (h : buildInnerRow d gi gIndex j (.compiled c) accounts sig slot bt st =
      .ok (instr, newArgs)) :
    instr.slot = slot ∧
    instr.instruction_idx = j % 256 ∧
    instr.inner_instructions_set = some (gi % 256) ∧
    instr.transaction_instruction_idx = some gIndex ∧
    (∃ resolved, resolveInstructionAccounts "inner_instruction" accounts
        c.accounts = .ok resolved ∧
      instr.accounts = resizeAccounts resolved) := by
  unfold buildInnerRow at h
  simp only [except_bind_error, except_bind_ok] at h
  cases hpa : accounts.get? c.program_id_index with
  | none =>
    rw [hpa] at h
    simp only [except_bind_error, except_bind_ok] at h
    exact Except.noConfusion h
  | some pa =>
    rw [hpa] at h
    simp only [except_bind_error, except_bind_ok] at h
    cases hres : resolveInstructionAccounts "inner_instruction" accounts
        c.accounts with
    | error e =>
      rw [hres] at h
      simp only [except_bind_error, except_bind_ok] at h
      exact Except.noConfusion h
    | ok resolved =>
      rw [hres] at h
      simp only [except_bind_error, except_bind_ok] at h
      cases hb58 : from_base58 c.data with
      | error e =>
        rw [hb58] at h
        simp only [except_bind_error, except_bind_ok] at h
        exact Except.noConfusion h
      | ok bytes =>
        rw [hb58] at h
        simp only [except_bind_error, except_bind_ok] at h
        cases hpi : parse_instruction d pa bytes with
        | error e =>
          rw [hpi] at h
          cases e <;> simp only [except_bind_error, except_bind_ok] at h <;>
            try exact Except.noConfusion h
          cases hname : instructionNameOf c.data with
          | error e2 =>
            rw [hname] at h
            simp only [except_bind_error, except_bind_ok] at h
            exact Except.noConfusion h
          | ok name =>
            rw [hname] at h
            simp only [except_bind_error, except_bind_ok] at h
            rw [if_neg (by simp [resizeAccounts_length])] at h
            injection h with hpair
            rw [Prod.mk.injEq] at hpair
            obtain ⟨hinstr, -⟩ := hpair
            subst hinstr
            exact ⟨rfl, rfl, rfl, rfl, ⟨resolved, rfl, rfl⟩⟩
        | ok pd =>
          rw [hpi] at h
          simp only [except_bind_error, except_bind_ok] at h
          cases hname : instructionNameOf pd.1 with
          | error e2 =>
            rw [hname] at h
            simp only [except_bind_error, except_bind_ok] at h
            exact Except.noConfusion h
          | ok name =>
            rw [hname] at h
            simp only [except_bind_error, except_bind_ok] at h
            rw [if_neg (by simp [resizeAccounts_length])] at h
            injection h with hpair
            rw [Prod.mk.injEq] at hpair
            obtain ⟨hinstr, -⟩ := hpair
            subst hinstr
            exact ⟨rfl, rfl, rfl, rfl, ⟨resolved, rfl, rfl⟩⟩

theorem appendOuterFrom_shape (d : Decoders) (cs : List UiCompiledInstruction) :
    ∀ (k : Nat) (accounts : List String) (sig : String) (slot bt : Nat)
      (st : TxStatus) (set : List Instruction)
      (args : List InstructionArgument) (set' : List Instruction)
      (args' : List InstructionArgument),
    appendOuterFrom d k cs accounts sig slot bt st set args =
      .ok (set', args') →
    ∃ (rows : List Instruction) (blocks : List (List InstructionArgument)),
      rows.length = cs.length ∧ blocks.length = cs.length ∧
      set' = rows.foldl (fun s x => insertBTree x s) set ∧
      args' = args ++ blocks.flatten ∧
      ∀ p (hp : p < cs.length) (hq : p < rows.length)
          (hb : p < blocks.length),
        buildOuterRow d (k + p) (cs.get ⟨p, hp⟩) accounts sig slot bt st =
          .ok (rows.get ⟨p, hq⟩, blocks.get ⟨p, hb⟩) := by
  induction cs with
  | nil =>
    intro k accounts sig slot bt st set args set' args' h
    unfold appendOuterFrom at h
    injection h with hpair
    rw [Prod.mk.injEq] at hpair
    obtain ⟨h1, h2⟩ := hpair
    refine ⟨[], [], rfl, rfl, h1.symm, by simp [h2.symm], ?_⟩
    intro p hp
    exact absurd hp (by simp)
  | cons c rest ih =>
    intro k accounts sig slot bt st set args set' args' h
    unfold appendOuterFrom at h
    cases hb : buildOuterRow d k c accounts sig slot bt st with
    | error e =>
      rw [hb] at h
      simp only [except_bind_error] at h
      exact Except.noConfusion h
    | ok pr =>
      rw [hb] at h
      simp only [except_bind_ok] at h
      obtain ⟨i0, a0⟩ := pr
      obtain ⟨rows', blocks', hlr, hlb, hset, hargs, hpos⟩ :=
        ih (k + 1) accounts sig slot bt st (insertBTree i0 set)
          (args ++ a0) set' args' h
      refine ⟨i0 :: rows', a0 :: blocks', by simp [hlr], by simp [hlb],
        ?_, ?_, ?_⟩
      · rw [hset]
        rfl
      · simp [hargs]
      · intro p hp hq hbl
        match p with
        | 0 => simpa using hb
        | q + 1 =>
          have hq' : q < rest.length := by
            simp at hp
            omega
          have := hpos q hq' (by simp at hq; omega) (by simp at hbl; omega)
          rw [show k + (q + 1) = (k + 1) + q by omega]
          exact this

theorem parse_ok_extract {d : Decoders} {slot : Nat} {sigs keys : List String}
    {outers : List UiCompiledInstruction} {meta : Option UiTransactionStatusMeta}
    {btime : Option Int} {instrs : List Instruction} {bals : List Balance}
    {args : List InstructionArgument}
    (h : parse_transactions d
      ⟨slot, ⟨.json sigs (.raw ⟨keys, outers⟩), meta⟩, btime⟩ =
      some (.ok (instrs, bals, args))) :
    ∃ (s0 : String) (accountsUsed : List String) (status : TxStatus),
      sigs.get? 0 = some s0 ∧
      append_instructions d outers
        (meta.bind fun m => m.inner_instructions) accountsUsed s0 slot
        (intToU64 (btime.getD 0)) status [] [] = .ok (instrs, args) := by
  unfold parse_transactions at h
  simp only at h
  cases hsig : sigs.get? 0 with
  | none => rw [hsig] at h; cases h
  | some s0 =>
    rw [hsig] at h
    dsimp only at h
    by_cases hk : keys.length > ACCOUNTS_ARRAY_SIZE
    · rw [if_pos hk] at h
      simp at h
    · rw [if_neg hk] at h
      cases meta with
      | none =>
        dsimp only at h
        simp only [Option.bind] at h ⊢
        cases happ : append_instructions d outers none keys s0 slot
            (intToU64 (btime.getD 0)) TxStatus.Success [] [] with
        | error e => rw [happ] at h; simp at h
        | ok pr =>
          rw [happ] at h
          obtain ⟨set, args2⟩ := pr
          simp only [Option.some.injEq] at h
          injection h with hpair
          rw [Prod.mk.injEq] at hpair
          obtain ⟨h1, hpair2⟩ := hpair
          rw [Prod.mk.injEq] at hpair2
          obtain ⟨h2, h3⟩ := hpair2
          subst h1
          subst h3
          exact ⟨s0, keys, TxStatus.Success, rfl, happ⟩
      | some m =>
        dsimp only at h
        simp only [Option.bind] at h ⊢
        cases hbal : balancesSection s0 (extendedAccounts keys m) m with
        | none => rw [hbal] at h; cases h
        | some r =>
          rw [hbal] at h
          cases r with
          | error e => simp at h
          | ok pr =>
            obtain ⟨brows, pm⟩ := pr
            cases happ : append_instructions d outers m.inner_instructions
                (extendedAccounts keys m) s0 slot (intToU64 (btime.getD 0))
                (metaTxStatus m) [] [] with
            | error e => rw [happ] at h; simp at h
            | ok pr2 =>
              rw [happ] at h
              obtain ⟨set, args2⟩ := pr2
              simp only [Option.some.injEq] at h
              injection h with hpair
              rw [Prod.mk.injEq] at hpair
              obtain ⟨h1, hpair2⟩ := hpair
              rw [Prod.mk.injEq] at hpair2
              obtain ⟨h2, h3⟩ := hpair2
              subst h1
              subst h3
              exact ⟨s0, extendedAccounts keys m, metaTxStatus m, rfl, happ⟩

theorem parse_err_lift {d : Decoders} {slot : Nat} {sigs keys : List String}
    {outers : List UiCompiledInstruction}
    {meta : Option UiTransactionStatusMeta} {btime : Option Int} {s0 : String}
    {e : ParseInstructionError}
    (hsig : sigs.get? 0 = some s0)
    (hk : ¬ keys.length > ACCOUNTS_ARRAY_SIZE) :
    (meta = none →
      append_instructions d outers none keys s0 slot
        (intToU64 (btime.getD 0)) TxStatus.Success [] [] = .error e →
      parse_transactions d
        ⟨slot, ⟨.json sigs (.raw ⟨keys, outers⟩), meta⟩, btime⟩ =
        some (.error e)) ∧
    (∀ m brows pm, meta = some m →
      balancesSection s0 (extendedAccounts keys m) m = some (.ok (brows, pm)) →
      append_instructions d outers m.inner_instructions
        (extendedAccounts keys m) s0 slot (intToU64 (btime.getD 0))
        (metaTxStatus m) [] [] = .error e →
      parse_transactions d
        ⟨slot, ⟨.json sigs (.raw ⟨keys, outers⟩), meta⟩, btime⟩ =
        some (.error e)) := by
  constructor
  · rintro rfl happ
    unfold parse_transactions
    simp only
    rw [hsig]
    dsimp only
    rw [if_neg hk]
    rw [happ]
  · rintro m brows pm rfl hbal happ
    unfold parse_transactions
    simp only
    rw [hsig]
    dsimp only
    rw [if_neg hk]
    rw [hbal]
    rw [happ]

theorem resizeAccounts_pad (l : List (Option String))
    (h : l.length ≤ ACCOUNTS_ARRAY_SIZE) :
    resizeAccounts l = l ++ List.replicate (ACCOUNTS_ARRAY_SIZE - l.length) none := by
  unfold resizeAccounts
  rw [List.take_of_length_le h]

theorem resizeAccounts_trunc (l : List (Option String))
    (h : l.length > ACCOUNTS_ARRAY_SIZE) :
    resizeAccounts l = l.take ACCOUNTS_ARRAY_SIZE := by
  unfold resizeAccounts
  rw [show ACCOUNTS_ARRAY_SIZE - l.length = 0 from by omega]
  simp

set_option maxRecDepth 10000 in
/-- C7 counterexample: with 2 account keys (|A| = 2 ≤ 256) and one outer
instruction referencing 257 account indices, the emitted row's accounts
column is the resolved 257-entry list *truncated* to 256 entries — not the
resolved list "padded with none entries to exactly 256", which would be
the 257-entry list itself. -/
theorem c7_counterexample_truncation_not_padding :
    (instrRowsOf (parse_transactions decZero txC7)).map
      (fun l => l.map (fun r => r.accounts)) =
      some [List.replicate 256 (some "Q")] ∧
    resolveInstructionAccounts "instruction" ["P", "Q"]
      (List.replicate 257 1) = .ok (List.replicate 257 (some "Q")) ∧
    (List.replicate 256 (some "Q") : List (Option String)) ≠
      List.replicate 257 (some "Q") ++
        List.replicate (ACCOUNTS_ARRAY_SIZE - 257) none := by
  refine ⟨by decide, by rfl, ?_⟩
  intro h
  have hlen := congrArg List.length h
  simp [ACCOUNTS_ARRAY_SIZE] at hlen

/-- C7 amended: (1) for |A| > 256 `parse_transactions` returns
`InvalidLength{site=accounts, len, expected 256}` as claimed; (2) every
emitted outer instruction row's accounts column is
`resize(resolved accounts)`, which (3) pads the resolved list with `none`
to exactly 256 entries when it has at most 256, and (4) *truncates* it to
its first 256 entries when it is longer. -/
theorem c7_amended_accounts_resized_to_256 :
    (∀ (d : Decoders) (slot : Nat) (sigs keys : List String)
        (outers : List UiCompiledInstruction)
        (meta : Option UiTransactionStatusMeta) (btime : Option Int)
        (s0 : String), sigs.get? 0 = some s0 →
      keys.length > ACCOUNTS_ARRAY_SIZE →
      parse_transactions d
        ⟨slot, ⟨.json sigs (.raw ⟨keys, outers⟩), meta⟩, btime⟩ =
        some (.error (.InvalidLength "accounts" keys.length
          ACCOUNTS_ARRAY_SIZE))) ∧
    (∀ (d : Decoders) (k : Nat) (c : UiCompiledInstruction)
        (accounts : List String) (sig : String) (slot bt : Nat)
        (st : TxStatus) (instr : Instruction)
        (newArgs : List InstructionArgument),
      buildOuterRow d k c accounts sig slot bt st = .ok (instr, newArgs) →
      ∃ resolved, resolveInstructionAccounts "instruction" accounts
          c.accounts = .ok resolved ∧
        instr.accounts = resizeAccounts resolved) ∧
    (∀ l : List (Option String), l.length ≤ ACCOUNTS_ARRAY_SIZE →
      resizeAccounts l =
        l ++ List.replicate (ACCOUNTS_ARRAY_SIZE - l.length) none) ∧
    (∀ l : List (Option String), l.length > ACCOUNTS_ARRAY_SIZE →
      resizeAccounts l = l.take ACCOUNTS_ARRAY_SIZE) := by
  refine ⟨?_, ?_, resizeAccounts_pad, resizeAccounts_trunc⟩
  · intro d slot sigs keys outers meta btime s0 hsig hk
    unfold parse_transactions
    simp only
    rw [hsig]
    dsimp only
    rw [if_pos hk]
  · intro d k c accounts sig slot bt st instr newArgs h
    exact (buildOuterRow_ok h).2.2.2.2.2.2.1

set_option maxRecDepth 10000 in
/-- Witness for C7's amended theorem at concrete inputs. -/
theorem c7_amended_accounts_resized_to_256_witness :
    parse_transactions decZero txC7big =
      some (.error (.InvalidLength "accounts" 257 ACCOUNTS_ARRAY_SIZE)) ∧
    resizeAccounts (List.replicate 2 (some "x")) =
      List.replicate 2 (some "x") ++ List.replicate 254 none ∧
    resizeAccounts (List.replicate 257 (some "x")) =
      (List.replicate 257 (some "x")).take 256 := by
  have h := c7_amended_accounts_resized_to_256
  refine ⟨?_, ?_, ?_⟩
  · have := h.1 decZero 5 ["SIG"] (List.replicate 257 "K") [] none (some 99)
      "SIG" (by rfl) (by decide)
    simpa using this
  · have := h.2.2.1 (List.replicate 2 (some "x")) (by decide)
    simpa using this
  · exact h.2.2.2 (List.replicate 257 (some "x")) (by decide)

theorem base58_fold_chars (cs : List Char) :
    ∀ (acc n : Nat),
      List.foldlM (fun acc c =>
        match base58CharVal c with
        | some v => Except.ok (acc * 58 + v)
        | none =>
          Except.error ParseInstructionError.DeserializeFromBase58Error)
        acc cs = Except.ok n →
      ∀ c ∈ cs, (base58CharVal c).isSome := by
  induction cs with
  | nil =>
    intro acc n h c hc
    cases hc
  | cons a rest ih =>
    intro acc n h c hc
    rw [List.foldlM_cons] at h
    cases hv : base58CharVal a with
    | none =>
      rw [hv] at h
      dsimp only at h
      simp only [except_bind_error] at h
      exact Except.noConfusion h
    | some v =>
      rw [hv] at h
      dsimp only at h
      simp only [except_bind_ok] at h
      cases hc with
      | head => simp [hv]
      | tail _ hc2 => exact ih _ _ h c hc2

theorem from_base58_ok_chars {s : String} {bytes : List Nat}
    (h : from_base58 s = .ok bytes) :
    ∀ c ∈ s.toList, (base58CharVal c).isSome := by
  unfold from_base58 at h
  cases hf : s.toList.foldlM (fun acc c =>
      match base58CharVal c with
      | some v => Except.ok (acc * 58 + v)
      | none =>
        Except.error ParseInstructionError.DeserializeFromBase58Error)
      (0 : Nat) with
  | error e =>
    rw [hf] at h
    exact Except.noConfusion h
  | ok n =>
    exact base58_fold_chars s.toList 0 n hf

theorem splitCharList_no_sep (sep : Char) :
    ∀ cs : List Char, (∀ c ∈ cs, c ≠ sep) → splitCharList sep cs = [cs] := by
  intro cs
  induction cs with
  | nil =>
    intro _
    rfl
  | cons a rest ih =>
    intro hno
    unfold splitCharList
    dsimp only
    rw [if_neg (hno a (by simp))]
    rw [ih (fun c hc => hno c (by simp [hc]))]

theorem instructionNameOf_no_quote {s : String}
    (h : ∀ c ∈ s.toList, c ≠ '"') : instructionNameOf s = .ok "" := by
  unfold instructionNameOf splitQuote
  rw [splitCharList_no_sep '"' s.toList h]
  rfl

theorem from_base58_ok_name {s : String} {bytes : List Nat}
    (h : from_base58 s = .ok bytes) : instructionNameOf s = .ok "" := by
  apply instructionNameOf_no_quote
  intro c hc hq
  have h2 := from_base58_ok_chars h c hc
  rw [hq, show base58CharVal '"' = none from by decide] at h2
  simp at h2

/-- C6: (1) an instruction whose program dispatch yields
`ProgramAddressMatchError` is downgraded, not aborted: the row is still
emitted with empty `instruction_name`, `data` equal to the original base58
text, and no argument rows; (2) any other dispatch error makes the row
builder return that error; (3) so does a base58 decode failure of the data
field; (4) a failing row builder aborts the whole outer-instruction loop
with that error, while (5) a successful build just continues it; (6) an
aborted loop aborts `append_instructions`, and (7) an aborted
`append_instructions` makes `parse_transactions` return that error for the
whole transaction — no rows are emitted. -/
theorem c6_program_address_match_error_downgraded :
    (∀ (d : Decoders) (k : Nat) (c : UiCompiledInstruction)
        (accounts : List String) (sig : String) (slot bt : Nat)
        (st : TxStatus) (pa : String) (resolved : List (Option String))
        (bytes : List Nat),
      accounts.get? c.program_id_index = some pa →
      resolveInstructionAccounts "instruction" accounts c.accounts =
        .ok resolved →
      from_base58 c.data = .ok bytes →
      parse_instruction d pa bytes = .error .ProgramAddressMatchError →
      ∃ instr, buildOuterRow d k c accounts sig slot bt st =
          .ok (instr, []) ∧
        instr.instruction_name = "" ∧ instr.data = c.data) ∧
    (∀ (d : Decoders) (k : Nat) (c : UiCompiledInstruction)
        (accounts : List String) (sig : String) (slot bt : Nat)
        (st : TxStatus) (pa : String) (resolved : List (Option String))
        (bytes : List Nat) (e : ParseInstructionError),
      accounts.get? c.program_id_index = some pa →
      resolveInstructionAccounts "instruction" accounts c.accounts =
        .ok resolved →
      from_base58 c.data = .ok bytes →
      parse_instruction d pa bytes = .error e →
      e ≠ .ProgramAddressMatchError →
      buildOuterRow d k c accounts sig slot bt st = .error e) ∧
    (∀ (d : Decoders) (k : Nat) (c : UiCompiledInstruction)
        (accounts : List String) (sig : String) (slot bt : Nat)
        (st : TxStatus) (pa : String) (resolved : List (Option String))
        (e : ParseInstructionError),
      accounts.get? c.program_id_index = some pa →
      resolveInstructionAccounts "instruction" accounts c.accounts =
        .ok resolved →
      from_base58 c.data = .error e →
      buildOuterRow d k c accounts sig slot bt st = .error e) ∧
    (∀ (d : Decoders) (k : Nat) (c : UiCompiledInstruction)
        (rest : List UiCompiledInstruction) (accounts : List String)
        (sig : String) (slot bt : Nat) (st : TxStatus)
        (set : List Instruction) (args : List InstructionArgument)
        (e : ParseInstructionError),
      buildOuterRow d k c accounts sig slot bt st = .error e →
      appendOuterFrom d k (c :: rest) accounts sig slot bt st set args =
        .error e) ∧
    (∀ (d : Decoders) (k : Nat) (c : UiCompiledInstruction)
        (rest : List UiCompiledInstruction) (accounts : List String)
        (sig : String) (slot bt : Nat) (st : TxStatus)
        (set : List Instruction) (args : List InstructionArgument)
        (instr : Instruction) (newArgs : List InstructionArgument),
      buildOuterRow d k c accounts sig slot bt st = .ok (instr, newArgs) →
      appendOuterFrom d k (c :: rest) accounts sig slot bt st set args =
        appendOuterFrom d (k + 1) rest accounts sig slot bt st
          (insertBTree instr set) (args ++ newArgs)) ∧
    (∀ (d : Decoders) (outers : List UiCompiledInstruction)
        (inner : Option (List UiInnerInstructions)) (accounts : List String)
        (sig : String) (slot bt : Nat) (st : TxStatus)
        (set : List Instruction) (args : List InstructionArgument)
        (e : ParseInstructionError),
      appendOuterFrom d 0 outers accounts sig slot bt st set args =
        .error e →
      append_instructions d outers inner accounts sig slot bt st set args =
        .error e) ∧
    (∀ (d : Decoders) (slot : Nat) (sigs keys : List String)
        (outers : List UiCompiledInstruction) (btime : Option Int)
        (s0 : String) (e : ParseInstructionError),
      sigs.get? 0 = some s0 → ¬ keys.length > ACCOUNTS_ARRAY_SIZE →
      append_instructions d outers none keys s0 slot
        (intToU64 (btime.getD 0)) TxStatus.Success [] [] = .error e →
      parse_transactions d
        ⟨slot, ⟨.json sigs (.raw ⟨keys, outers⟩), none⟩, btime⟩ =
        some (.error e)) := by
  refine ⟨?_, ?_, ?_, ?_, ?_, ?_, ?_⟩
  · intro d k c accounts sig slot bt st pa resolved bytes hpa hres hb58 hpame
    unfold buildOuterRow
    rw [hpa]
    simp only [except_bind_error, except_bind_ok]
    rw [hres]
    simp only [except_bind_error, except_bind_ok]
    rw [hb58]
    simp only [except_bind_error, except_bind_ok]
    rw [hpame]
    simp only [except_bind_error, except_bind_ok]
    rw [from_base58_ok_name hb58]
    simp only [except_bind_error, except_bind_ok]
    rw [if_neg (by simp [resizeAccounts_length])]
    exact ⟨_, rfl, rfl, rfl⟩
  · intro d k c accounts sig slot bt st pa resolved bytes e hpa hres hb58
      hpi hne
    unfold buildOuterRow
    rw [hpa]
    simp only [except_bind_error, except_bind_ok]
    rw [hres]
    simp only [except_bind_error, except_bind_ok]
    rw [hb58]
    simp only [except_bind_error, except_bind_ok]
    rw [hpi]
    cases e with
    | ProgramAddressMatchError => exact absurd rfl hne
    | _ => rfl
  · intro d k c accounts sig slot bt st pa resolved e hpa hres hb58
    unfold buildOuterRow
    rw [hpa]
    simp only [except_bind_error, except_bind_ok]
    rw [hres]
    simp only [except_bind_error, except_bind_ok]
    rw [hb58]
    rfl
  · intro d k c rest accounts sig slot bt st set args e h
    unfold appendOuterFrom
    rw [h]
    rfl
  · intro d k c rest accounts sig slot bt st set args instr newArgs h
    conv_lhs => unfold appendOuterFrom
    rw [h]
    rfl
  · intro d outers inner accounts sig slot bt st set args e h
    unfold append_instructions
    rw [h]
    rfl
  · intro d slot sigs keys outers btime s0 e hsig hk happ
    exact (parse_err_lift hsig hk).1 rfl happ

set_option maxRecDepth 10000 in
/-- Witness for C6's theorem: each clause applied at concrete inputs. -/
theorem c6_program_address_match_error_downgraded_witness :
    (∃ instr, buildOuterRow decZero 0 ⟨0, [], "1"⟩ ["P"] "S" 7 8
        TxStatus.Success = .ok (instr, []) ∧
      instr.instruction_name = "" ∧ instr.data = "1") ∧
    buildOuterRow decZero 0 ⟨0, [], "1"⟩
      ["Stake11111111111111111111111111111111111111"] "S" 7 8
      TxStatus.Success = .error .DeserializeError ∧
    buildOuterRow decZero 0 ⟨0, [], "0"⟩ ["P"] "S" 7 8 TxStatus.Success =
      .error .DeserializeFromBase58Error ∧
    appendOuterFrom decZero 0 [⟨0, [], "0"⟩] ["P"] "S" 7 8
      TxStatus.Success [] [] = .error .DeserializeFromBase58Error ∧
    append_instructions decZero [⟨0, [], "0"⟩] none ["P"] "S" 7 8
      TxStatus.Success [] [] = .error .DeserializeFromBase58Error ∧
    parse_transactions decZero
      ⟨7, ⟨.json ["S"] (.raw ⟨["P"], [⟨0, [], "0"⟩]⟩), none⟩, some 8⟩ =
      some (.error .DeserializeFromBase58Error) := by
  have h := c6_program_address_match_error_downgraded
  have h3 := h.2.2.1 decZero 0 ⟨0, [], "0"⟩ ["P"] "S" 7 8 TxStatus.Success
    "P" [] .DeserializeFromBase58Error rfl rfl rfl
  have h4 := h.2.2.2.1 decZero 0 ⟨0, [], "0"⟩ [] ["P"] "S" 7 8
    TxStatus.Success [] [] .DeserializeFromBase58Error h3
  have h6 := h.2.2.2.2.2.1 decZero [⟨0, [], "0"⟩] none ["P"] "S" 7 8
    TxStatus.Success [] [] .DeserializeFromBase58Error h4
  refine ⟨?_, ?_, h3, h4, h6, ?_⟩
  · exact h.1 decZero 0 ⟨0, [], "1"⟩ ["P"] "S" 7 8 TxStatus.Success "P" []
      [0] rfl rfl rfl rfl
  · exact h.2.1 decZero 0 ⟨0, [], "1"⟩
      ["Stake11111111111111111111111111111111111111"] "S" 7 8
      TxStatus.Success "Stake11111111111111111111111111111111111111" [] [0]
      .DeserializeError rfl rfl rfl rfl (by decide)
  · exact h.2.2.2.2.2.2 decZero 7 ["S"] ["P"] [⟨0, [], "0"⟩] (some 8) "S"
      .DeserializeFromBase58Error rfl (by decide) h6

theorem mem_insertBTree_cases {z x : Instruction} {l : List Instruction}
    (h : z ∈ insertBTree x l) : z = x ∨ z ∈ l := by
  induction l with
  | nil =>
    rw [show insertBTree x [] = [x] from rfl] at h
    rw [List.mem_singleton] at h
    exact Or.inl h
  | cons y ys ih =>
    unfold insertBTree at h
    by_cases h1 : x.klt y = true
    · rw [if_pos h1] at h
      rcases List.mem_cons.mp h with rfl | h2
      · exact Or.inl rfl
      · exact Or.inr h2
    · rw [if_neg h1] at h
      by_cases h2 : x.peq y = true
      · rw [if_pos h2] at h
        exact Or.inr h
      · rw [if_neg h2] at h
        rcases List.mem_cons.mp h with rfl | h3
        · exact Or.inr (List.mem_cons_self _ _)
        · rcases ih h3 with h4 | h4
          · exact Or.inl h4
          · exact Or.inr (List.mem_cons_of_mem _ h4)

theorem mem_insertBTree_of_mem {z : Instruction} (x : Instruction)
    {l : List Instruction} (h : z ∈ l) : z ∈ insertBTree x l := by
  induction l with
  | nil => cases h
  | cons y ys ih =>
    unfold insertBTree
    by_cases h1 : x.klt y = true
    · rw [if_pos h1]
      exact List.mem_cons_of_mem _ h
    · rw [if_neg h1]
      by_cases h2 : x.peq y = true
      · rw [if_pos h2]
        exact h
      · rw [if_neg h2]
        rcases List.mem_cons.mp h with rfl | h3
        · exact List.mem_cons_self _ _
        · exact List.mem_cons_of_mem _ (ih h3)

theorem self_mem_insertBTree {x : Instruction} {l : List Instruction}
    (h : x.key ∉ keysOf l) : x ∈ insertBTree x l := by
  induction l with
  | nil => exact List.mem_singleton.mpr rfl
  | cons y ys ih =>
    unfold insertBTree
    by_cases h1 : x.klt y = true
    · rw [if_pos h1]
      exact List.mem_cons_self _ _
    · rw [if_neg h1]
      by_cases h2 : x.peq y = true
      · exact absurd ((Instruction.peq_iff x y).mp h2)
          (fun he => h (by simp only [keysOf, List.map_cons,
            List.mem_cons]; exact Or.inl he))
      · rw [if_neg h2]
        refine List.mem_cons_of_mem _ (ih fun hm => h ?_)
        simp only [keysOf, List.map_cons, List.mem_cons]
        exact Or.inr hm

theorem foldl_insertBTree_props (R : List Instruction) :
    ∀ (s : List Instruction), SortedKeys s →
      (∀ r ∈ R, r.key ∉ keysOf s) → (keysOf R).Nodup →
      SortedKeys (R.foldl (fun t x => insertBTree x t) s) ∧
      (R.foldl (fun t x => insertBTree x t) s).length =
        s.length + R.length ∧
      (∀ z, z ∈ R.foldl (fun t x => insertBTree x t) s ↔
        z ∈ s ∨ z ∈ R) := by
  induction R with
  | nil =>
    intro s hs _ _
    exact ⟨hs, by simp, by simp⟩
  | cons r R2 ih =>
    intro s hs hfresh hnd
    have hrfresh : r.key ∉ keysOf s := hfresh r (List.mem_cons_self _ _)
    have hnd2 : r.key ∉ keysOf R2 ∧ (keysOf R2).Nodup := by
      rw [show keysOf (r :: R2) = r.key :: keysOf R2 from rfl,
        List.nodup_cons] at hnd
      exact hnd
    have hrR2 : ∀ r2 ∈ R2, r2.key ≠ r.key := by
      intro r2 hr2 he
      exact hnd2.1 (he ▸ List.mem_map_of_mem Instruction.key hr2)
    have hfresh2 : ∀ r2 ∈ R2, r2.key ∉ keysOf (insertBTree r s) := by
      intro r2 hr2 hm
      rcases (keysOf_insertBTree r s r2.key).mp hm with he | hm2
      · exact hrR2 r2 hr2 he
      · exact hfresh r2 (List.mem_cons_of_mem _ hr2) hm2
    obtain ⟨ih1, ih2, ih3⟩ := ih (insertBTree r s)
      (sortedKeys_insertBTree r s hs) hfresh2 hnd2.2
    refine ⟨ih1, ?_, ?_⟩
    · rw [List.foldl_cons, ih2, length_insertBTree_of_not_mem r s hrfresh,
        List.length_cons]
      omega
    · intro z
      rw [List.foldl_cons, ih3 z]
      constructor
      · rintro (hz | hz)
        · rcases mem_insertBTree_cases hz with rfl | hz2
          · exact Or.inr (List.mem_cons_self _ _)
          · exact Or.inl hz2
        · exact Or.inr (List.mem_cons_of_mem _ hz)
      · rintro (hz | hz)
        · exact Or.inl (mem_insertBTree_of_mem r hz)
        · rcases List.mem_cons.mp hz with rfl | hz2
          · exact Or.inl (self_mem_insertBTree hrfresh)
          · exact Or.inr hz2

theorem appendInnerGroupFrom_shape (d : Decoders) (uis : List UiInstruction) :
    ∀ (gi gIndex j : Nat) (accounts : List String) (sig : String)
      (slot bt : Nat) (st : TxStatus) (set : List Instruction)
      (args : List InstructionArgument) (set' : List Instruction)
      (args' : List InstructionArgument),
    appendInnerGroupFrom d gi gIndex j uis accounts sig slot bt st set
      args = .ok (set', args') →
    ∃ rows : List Instruction, rows.length = uis.length ∧
      set' = rows.foldl (fun s x => insertBTree x s) set ∧
      ∀ p (hp : p < uis.length) (hq : p < rows.length),
        ∃ blk, buildInnerRow d gi gIndex (j + p) (uis.get ⟨p, hp⟩)
          accounts sig slot bt st = .ok (rows.get ⟨p, hq⟩, blk) := by
  induction uis with
  | nil =>
    intro gi gIndex j accounts sig slot bt st set args set' args' h
    unfold appendInnerGroupFrom at h
    injection h with hpair
    rw [Prod.mk.injEq] at hpair
    refine ⟨[], rfl, hpair.1.symm, ?_⟩
    intro p hp
    exact absurd hp (by simp)
  | cons ui rest ih =>
    intro gi gIndex j accounts sig slot bt st set args set' args' h
    unfold appendInnerGroupFrom at h
    cases hb : buildInnerRow d gi gIndex j ui accounts sig slot bt st with
    | error e =>
      rw [hb] at h
      simp only [except_bind_error] at h
      exact Except.noConfusion h
    | ok pr =>
      rw [hb] at h
      simp only [except_bind_ok] at h
      obtain ⟨i0, a0⟩ := pr
      obtain ⟨rows2, hlr, hset, hpos⟩ :=
        ih gi gIndex (j + 1) accounts sig slot bt st (insertBTree i0 set)
          (args ++ a0) set' args' h
      refine ⟨i0 :: rows2, by simp [hlr], ?_, ?_⟩
      · rw [hset]
        rfl
      · intro p hp hq
        match p with
        | 0 => exact ⟨a0, by simpa using hb⟩
        | q + 1 =>
          have hq2 : q < rest.length := by
            simp at hp
            omega
          obtain ⟨blk, hblk⟩ := hpos q hq2 (by simp at hq; omega)
          refine ⟨blk, ?_⟩
          rw [show j + (q + 1) = (j + 1) + q by omega]
          exact hblk

theorem appendInnerFrom_shape (d : Decoders)
    (groups : List UiInnerInstructions) :
    ∀ (g : Nat) (accounts : List String) (sig : String) (slot bt : Nat)
      (st : TxStatus) (set : List Instruction)
      (args : List InstructionArgument) (set' : List Instruction)
      (args' : List InstructionArgument),
    appendInnerFrom d g groups accounts sig slot bt st set args =
      .ok (set', args') →
    ∃ rowss : List (List Instruction), rowss.length = groups.length ∧
      set' = rowss.flatten.foldl (fun s x => insertBTree x s) set ∧
      ∀ q (hq : q < groups.length) (hr : q < rowss.length),
        (rowss.get ⟨q, hr⟩).length =
          (groups.get ⟨q, hq⟩).instructions.length ∧
        ∀ p (hp : p < (groups.get ⟨q, hq⟩).instructions.length)
            (hpr : p < (rowss.get ⟨q, hr⟩).length),
          ∃ blk, buildInnerRow d (g + q) (groups.get ⟨q, hq⟩).index p
            ((groups.get ⟨q, hq⟩).instructions.get ⟨p, hp⟩) accounts sig
            slot bt st = .ok ((rowss.get ⟨q, hr⟩).get ⟨p, hpr⟩, blk) := by
  induction groups with
  | nil =>
    intro g accounts sig slot bt st set args set' args' h
    unfold appendInnerFrom at h
    injection h with hpair
    rw [Prod.mk.injEq] at hpair
    refine ⟨[], rfl, by simp [hpair.1.symm], ?_⟩
    intro q hq
    exact absurd hq (by simp)
  | cons grp rest ih =>
    intro g accounts sig slot bt st set args set' args' h
    unfold appendInnerFrom at h
    cases hg : appendInnerGroupFrom d g grp.index 0 grp.instructions
        accounts sig slot bt st set args with
    | error e =>
      rw [hg] at h
      simp only [except_bind_error] at h
      exact Except.noConfusion h
    | ok pr =>
      rw [hg] at h
      simp only [except_bind_ok] at h
      obtain ⟨setG, argsG⟩ := pr
      obtain ⟨rows0, hl0, hset0, hpos0⟩ :=
        appendInnerGroupFrom_shape d grp.instructions g grp.index 0
          accounts sig slot bt st set args setG argsG hg
      obtain ⟨rowss2, hlr, hset, hpos⟩ :=
        ih (g + 1) accounts sig slot bt st setG argsG set' args' h
      refine ⟨rows0 :: rowss2, by simp [hlr], ?_, ?_⟩
      · rw [hset, hset0, List.flatten_cons, List.foldl_append]
      · intro q hq hr
        match q with
        | 0 =>
          refine ⟨by simpa using hl0, ?_⟩
          intro p hp hpr
          obtain ⟨blk, hblk⟩ := hpos0 p (by simpa using hp)
            (by simpa using hpr)
          refine ⟨blk, ?_⟩
          simpa using hblk
        | t + 1 =>
          have hq2 : t < rest.length := by
            simp at hq
            omega
          have hr2 : t < rowss2.length := by
            simp at hr
            omega
          obtain ⟨hlen, hin⟩ := hpos t hq2 hr2
          refine ⟨by simpa using hlen, ?_⟩
          intro p hp hpr
          obtain ⟨blk, hblk⟩ := hin p (by simpa using hp) (by simpa using hpr)
          refine ⟨blk, ?_⟩
          rw [show g + (t + 1) = (g + 1) + t by omega]
          simpa using hblk

theorem buildInnerRow_fields {d : Decoders} {gi gIndex j : Nat}
    {ui : UiInstruction} {accounts : List String} {sig : String}
    {slot bt : Nat} {st : TxStatus} {instr : Instruction}
    {blk : List InstructionArgument}
    (h : buildInnerRow d gi gIndex j ui accounts sig slot bt st =
      .ok (instr, blk)) :
    instr.slot = slot ∧ instr.instruction_idx = j % 256 ∧
    instr.transaction_instruction_idx = some gIndex := by
  cases ui with
  | parsed =>
    unfold buildInnerRow at h
    exact Except.noConfusion h
  | compiled c =>
    obtain ⟨h1, h2, -, h4, -⟩ := buildInnerRow_ok h
    exact ⟨h1, h2, h4⟩

theorem raw_of_outer_idx {i : Instruction} {k : Nat}
    (ht : i.transaction_instruction_idx = none)
    (hi : i.instruction_idx = k) (hk : k < 256) :
    i.get_raw_instruction_idx = k * 256 := by
  simp only [Instruction.get_raw_instruction_idx, ht, hi]
  exact Nat.mod_eq_of_lt (by omega)

theorem raw_of_inner_idx {i : Instruction} {t k : Nat}
    (ht : i.transaction_instruction_idx = some t)
    (hi : i.instruction_idx = k) (htl : t < 256) (hkl : k < 255) :
    i.get_raw_instruction_idx = t * 256 + k + 1 := by
  simp only [Instruction.get_raw_instruction_idx, ht, hi]
  rw [Nat.mod_eq_of_lt (by omega), Nat.mod_eq_of_lt (by omega)]

theorem append_instructions_rows {d : Decoders}
    {outers : List UiCompiledInstruction}
    {inner : Option (List UiInnerInstructions)} {accounts : List String}
    {sig : String} {slot bt : Nat} {st : TxStatus}
    {instrs : List Instruction} {args : List InstructionArgument}
    (h : append_instructions d outers inner accounts sig slot bt st [] []
      = .ok (instrs, args)) :
    ∃ (rowsO : List Instruction) (rowss : List (List Instruction)),
      rowsO.length = outers.length ∧
      rowss.length = (inner.getD []).length ∧
      instrs =
        (rowsO ++ rowss.flatten).foldl (fun s x => insertBTree x s) [] ∧
      (∀ p (hp : p < outers.length) (hq : p < rowsO.length),
        ∃ blk, buildOuterRow d p (outers.get ⟨p, hp⟩) accounts sig slot bt
          st = .ok (rowsO.get ⟨p, hq⟩, blk)) ∧
      (∀ q (hq : q < (inner.getD []).length) (hr : q < rowss.length),
        (rowss.get ⟨q, hr⟩).length =
          ((inner.getD []).get ⟨q, hq⟩).instructions.length ∧
        ∀ p (hp : p < ((inner.getD []).get ⟨q, hq⟩).instructions.length)
            (hpr : p < (rowss.get ⟨q, hr⟩).length),
          ∃ blk, buildInnerRow d q ((inner.getD []).get ⟨q, hq⟩).index p
            (((inner.getD []).get ⟨q, hq⟩).instructions.get ⟨p, hp⟩)
            accounts sig slot bt st =
            .ok ((rowss.get ⟨q, hr⟩).get ⟨p, hpr⟩, blk)) := by
  unfold append_instructions at h
  cases hout : appendOuterFrom d 0 outers accounts sig slot bt st [] [] with
  | error e =>
    rw [hout] at h
    simp only [except_bind_error] at h
    exact Except.noConfusion h
  | ok pr =>
    rw [hout] at h
    simp only [except_bind_ok] at h
    obtain ⟨setO, argsO⟩ := pr
    obtain ⟨rowsO, blocksO, hlO, hlbO, hsetO, hargsO, hposO⟩ :=
      appendOuterFrom_shape d outers 0 accounts sig slot bt st [] [] setO
        argsO hout
    have houter : ∀ p (hp : p < outers.length) (hq : p < rowsO.length),
        ∃ blk, buildOuterRow d p (outers.get ⟨p, hp⟩) accounts sig slot bt
          st = .ok (rowsO.get ⟨p, hq⟩, blk) := by
      intro p hp hq
      have hb : p < blocksO.length := by
        rw [hlbO]
        exact hp
      exact ⟨blocksO.get ⟨p, hb⟩, by simpa using hposO p hp hq hb⟩
    cases inner with
    | none =>
      dsimp only at h
      injection h with hpair
      rw [Prod.mk.injEq] at hpair
      refine ⟨rowsO, [], hlO, rfl, ?_, houter, ?_⟩
      · rw [← hpair.1, hsetO]
        simp
      · intro q hq
        exact absurd hq (by simp)
    | some gs =>
      dsimp only at h
      obtain ⟨rowss, hlr, hset, hpos⟩ :=
        appendInnerFrom_shape d gs 0 accounts sig slot bt st setO argsO
          instrs args h
      refine ⟨rowsO, rowss, hlO, by simpa using hlr, ?_, houter, ?_⟩
      · rw [hset, hsetO, List.foldl_append]
      · intro q hq hr
        obtain ⟨hlen, hin⟩ := hpos q (by simpa using hq) hr
        refine ⟨by simpa using hlen, ?_⟩
        intro p hp hpr
        obtain ⟨blk, hblk⟩ := hin p (by simpa using hp) (by simpa using hpr)
        exact ⟨blk, by simpa using hblk⟩

theorem append_rows_c1 {d : Decoders} {outers : List UiCompiledInstruction}
    {inner : Option (List UiInnerInstructions)} {accounts : List String}
    {sig : String} {slot bt : Nat} {st : TxStatus}
    {instrs : List Instruction} {args : List InstructionArgument}
    (h : append_instructions d outers inner accounts sig slot bt st [] []
      = .ok (instrs, args))
    (hN : outers.length ≤ 256)
    (hgn : ((inner.getD []).map (fun g => g.index)).Nodup)
    (hglt : ∀ grp ∈ inner.getD [], grp.index < 256)
    (hM : ∀ grp ∈ inner.getD [], grp.instructions.length ≤ 255) :
    instrs.length = outers.length +
      ((inner.getD []).map (fun g => g.instructions.length)).sum ∧
    (instrs.map Instruction.get_raw_instruction_idx).Pairwise (· < ·) ∧
    (∀ i < outers.length, ∃ r ∈ instrs,
      r.transaction_instruction_idx = none ∧ r.instruction_idx = i ∧
      r.get_raw_instruction_idx = i * 256) ∧
    (∀ grp ∈ inner.getD [], ∀ j < grp.instructions.length, ∃ r ∈ instrs,
      r.transaction_instruction_idx = some grp.index ∧
      r.instruction_idx = j ∧
      r.get_raw_instruction_idx = grp.index * 256 + j + 1) := by
  obtain ⟨rowsO, rowss, hlO, hlI, hfold, hOok, hIok⟩ :=
    append_instructions_rows h
  have hrowO : ∀ p (hq : p < rowsO.length),
      (rowsO.get ⟨p, hq⟩).slot = slot ∧
      (rowsO.get ⟨p, hq⟩).transaction_instruction_idx = none ∧
      (rowsO.get ⟨p, hq⟩).instruction_idx = p ∧
      (rowsO.get ⟨p, hq⟩).get_raw_instruction_idx = p * 256 := by
    intro p hq
    have hp : p < outers.length := by
      rw [← hlO]
      exact hq
    obtain ⟨blk, hb⟩ := hOok p hp hq
    obtain ⟨hs, hi, ht, -, -, -, -, -, -⟩ := buildOuterRow_ok hb
    have hplt : p < 256 := lt_of_lt_of_le hp hN
    have hi2 : (rowsO.get ⟨p, hq⟩).instruction_idx = p := by
      rw [hi]
      exact Nat.mod_eq_of_lt hplt
    exact ⟨hs, ht, hi2, raw_of_outer_idx ht hi2 hplt⟩
  have hrowI : ∀ q (hr : q < rowss.length)
      (hq : q < (inner.getD []).length) p
      (hpr : p < (rowss.get ⟨q, hr⟩).length),
      ((rowss.get ⟨q, hr⟩).get ⟨p, hpr⟩).slot = slot ∧
      ((rowss.get ⟨q, hr⟩).get ⟨p, hpr⟩).transaction_instruction_idx =
        some ((inner.getD []).get ⟨q, hq⟩).index ∧
      ((rowss.get ⟨q, hr⟩).get ⟨p, hpr⟩).instruction_idx = p ∧
      ((rowss.get ⟨q, hr⟩).get ⟨p, hpr⟩).get_raw_instruction_idx =
        ((inner.getD []).get ⟨q, hq⟩).index * 256 + p + 1 := by
    intro q hr hq p hpr
    obtain ⟨hlen, hin⟩ := hIok q hq hr
    have hp : p < ((inner.getD []).get ⟨q, hq⟩).instructions.length := by
      rw [← hlen]
      exact hpr
    obtain ⟨blk, hb⟩ := hin p hp hpr
    obtain ⟨hs, hi, ht⟩ := buildInnerRow_fields hb
    have hMq : ((inner.getD []).get ⟨q, hq⟩).instructions.length ≤ 255 :=
      hM _ (List.get_mem _ _ _)
    have hplt : p < 255 := lt_of_lt_of_le hp hMq
    have hi2 : ((rowss.get ⟨q, hr⟩).get ⟨p, hpr⟩).instruction_idx = p := by
      rw [hi]
      exact Nat.mod_eq_of_lt (by omega)
    have hg2 : ((inner.getD []).get ⟨q, hq⟩).index < 256 :=
      hglt _ (List.get_mem _ _ _)
    exact ⟨hs, ht, hi2, raw_of_inner_idx ht hi2 hg2 hplt⟩
  have hkeyO : ∀ {k : Nat × Nat}, k ∈ keysOf rowsO →
      ∃ p, p < outers.length ∧ k = (slot, p * 256) := by
    intro k hk
    obtain ⟨r, hrm, hrk⟩ := List.mem_map.mp hk
    obtain ⟨⟨p, hq⟩, hget⟩ := List.mem_iff_get.mp hrm
    obtain ⟨hs, ht, hi, hraw⟩ := hrowO p hq
    refine ⟨p, by rw [← hlO]; exact hq, ?_⟩
    rw [← hrk, ← hget]
    unfold Instruction.key
    rw [hs, hraw]
  have hkeyI : ∀ {q : Nat} (hr : q < rowss.length)
      (hq : q < (inner.getD []).length) {k : Nat × Nat},
      k ∈ keysOf (rowss.get ⟨q, hr⟩) →
      ∃ p, p < ((inner.getD []).get ⟨q, hq⟩).instructions.length ∧
        k = (slot, ((inner.getD []).get ⟨q, hq⟩).index * 256 + p + 1) := by
    intro q hr hq k hk
    obtain ⟨r, hrm, hrk⟩ := List.mem_map.mp hk
    obtain ⟨⟨p, hpr⟩, hget⟩ := List.mem_iff_get.mp hrm
    obtain ⟨hs, ht, hi, hraw⟩ := hrowI q hr hq p hpr
    obtain ⟨hlen, -⟩ := hIok q hq hr
    refine ⟨p, by rw [← hlen]; exact hpr, ?_⟩
    rw [← hrk, ← hget]
    unfold Instruction.key
    rw [hs, hraw]
  have hnodO : (keysOf rowsO).Nodup := by
    rw [List.nodup_iff_injective_get]
    intro a b hab
    have hal : (a : Nat) < rowsO.length := by
      have h2 := a.2
      simpa [keysOf] using h2
    have hbl : (b : Nat) < rowsO.length := by
      have h2 := b.2
      simpa [keysOf] using h2
    have ha := hrowO a hal
    have hb := hrowO b hbl
    rw [show (keysOf rowsO).get a =
        Instruction.key (rowsO.get ⟨a, hal⟩) from List.get_map _,
      show (keysOf rowsO).get b =
        Instruction.key (rowsO.get ⟨b, hbl⟩) from List.get_map _] at hab
    unfold Instruction.key at hab
    rw [ha.1, ha.2.2.2, hb.1, hb.2.2.2] at hab
    have h2 : (a : Nat) * 256 = (b : Nat) * 256 := congrArg Prod.snd hab
    exact Fin.ext (by omega)
  have hnodI : (keysOf rowss.flatten).Nodup := by
    rw [show keysOf rowss.flatten = (rowss.map keysOf).flatten from
      List.map_flatten _ _]
    rw [List.nodup_flatten]
    constructor
    · intro l hl
      obtain ⟨rows, hrm, hrk⟩ := List.mem_map.mp hl
      obtain ⟨⟨q, hr⟩, hget⟩ := List.mem_iff_get.mp hrm
      have hq : q < (inner.getD []).length := by
        rw [← hlI]
        exact hr
      rw [← hrk, ← hget]
      rw [List.nodup_iff_injective_get]
      intro a b hab
      have hal : (a : Nat) < (rowss.get ⟨q, hr⟩).length := by
        have h2 := a.2
        simpa [keysOf] using h2
      have hbl : (b : Nat) < (rowss.get ⟨q, hr⟩).length := by
        have h2 := b.2
        simpa [keysOf] using h2
      have ha := hrowI q hr hq a hal
      have hb := hrowI q hr hq b hbl
      rw [show (keysOf (rowss.get ⟨q, hr⟩)).get a =
          Instruction.key ((rowss.get ⟨q, hr⟩).get ⟨a, hal⟩) from
          List.get_map _,
        show (keysOf (rowss.get ⟨q, hr⟩)).get b =
          Instruction.key ((rowss.get ⟨q, hr⟩).get ⟨b, hbl⟩) from
          List.get_map _] at hab
      unfold Instruction.key at hab
      rw [ha.1, ha.2.2.2, hb.1, hb.2.2.2] at hab
      have h2 := congrArg Prod.snd hab
      simp only at h2
      exact Fin.ext (by omega)
    · rw [List.pairwise_map, List.pairwise_iff_get]
      intro i j hij
      rw [List.disjoint_left]
      intro k hki hkj
      have hqi : (i : Nat) < (inner.getD []).length := by
        rw [← hlI]
        exact i.2
      have hqj : (j : Nat) < (inner.getD []).length := by
        rw [← hlI]
        exact j.2
      obtain ⟨p1, hp1, he1⟩ := hkeyI i.2 hqi hki
      obtain ⟨p2, hp2, he2⟩ := hkeyI j.2 hqj hkj
      have hne : ((inner.getD []).get ⟨i, hqi⟩).index ≠
          ((inner.getD []).get ⟨j, hqj⟩).index := by
        intro he
        have hmi : ((inner.getD []).map (fun g => g.index)).get
            ⟨i, by simpa using hqi⟩ =
            ((inner.getD []).get ⟨i, hqi⟩).index := List.get_map _
        have hmj : ((inner.getD []).map (fun g => g.index)).get
            ⟨j, by simpa using hqj⟩ =
            ((inner.getD []).get ⟨j, hqj⟩).index := List.get_map _
        have hfe : (⟨i, by simpa using hqi⟩ :
            Fin ((inner.getD []).map (fun g => g.index)).length) =
            ⟨j, by simpa using hqj⟩ :=
          (hgn.get_inj_iff).mp (by rw [hmi, hmj, he])
        have hije : (i : Nat) = (j : Nat) := by simpa using hfe
        have hlt : (i : Nat) < (j : Nat) := hij
        omega
      have hM1 : ((inner.getD []).get ⟨i, hqi⟩).instructions.length ≤ 255 :=
        hM _ (List.get_mem _ _ _)
      have hM2 : ((inner.getD []).get ⟨j, hqj⟩).instructions.length ≤ 255 :=
        hM _ (List.get_mem _ _ _)
      have h2 := congrArg Prod.snd (he1.symm.trans he2)
      simp only at h2
      omega
  have hndR : (keysOf (rowsO ++ rowss.flatten)).Nodup := by
    rw [show keysOf (rowsO ++ rowss.flatten) =
      keysOf rowsO ++ keysOf rowss.flatten from List.map_append _ _ _]
    rw [List.nodup_append]
    refine ⟨hnodO, hnodI, ?_⟩
    rw [List.disjoint_left]
    intro k hk1 hk2
    obtain ⟨p, hp, he1⟩ := hkeyO hk1
    rw [show keysOf rowss.flatten = (rowss.map keysOf).flatten from
      List.map_flatten _ _] at hk2
    obtain ⟨l, hl, hkl⟩ := List.mem_flatten.mp hk2
    obtain ⟨rows, hrm, hrk⟩ := List.mem_map.mp hl
    obtain ⟨⟨q, hr⟩, hget⟩ := List.mem_iff_get.mp hrm
    have hq : q < (inner.getD []).length := by
      rw [← hlI]
      exact hr
    have hkl2 : k ∈ keysOf (rowss.get ⟨q, hr⟩) := by
      rw [hget, hrk]
      exact hkl
    obtain ⟨p2, hp2, he2⟩ := hkeyI hr hq hkl2
    have hM2 := hM _ (List.get_mem (inner.getD []) q hq)
    have h2 := congrArg Prod.snd (he1.symm.trans he2)
    simp only at h2
    omega
  have hfresh : ∀ r ∈ rowsO ++ rowss.flatten,
      r.key ∉ keysOf ([] : List Instruction) := by
    intro r _ hm
    simp [keysOf] at hm
  obtain ⟨hsorted, hlen, hmem⟩ := foldl_insertBTree_props
    (rowsO ++ rowss.flatten) [] List.Pairwise.nil hfresh hndR
  rw [← hfold] at hsorted hlen hmem
  have hlens : rowss.map List.length =
      (inner.getD []).map (fun g => g.instructions.length) := by
    apply List.ext_get
    · simp [hlI]
    · intro n h1 h2
      have hr : n < rowss.length := by simpa using h1
      have hq : n < (inner.getD []).length := by simpa using h2
      rw [show (rowss.map List.length).get ⟨n, h1⟩ =
          (rowss.get ⟨n, hr⟩).length from List.get_map _,
        show ((inner.getD []).map (fun g => g.instructions.length)).get
          ⟨n, h2⟩ = ((inner.getD []).get ⟨n, hq⟩).instructions.length from
          List.get_map _]
      exact (hIok n hq hr).1
  refine ⟨?_, ?_, ?_, ?_⟩
  · rw [hlen]
    simp only [List.length_nil, List.length_append, List.length_flatten]
    rw [hlO, hlens]
    omega
  · rw [List.pairwise_map]
    have hslots : ∀ z ∈ instrs, z.slot = slot := by
      intro z hz
      rcases List.mem_append.mp (((hmem z).mp hz).resolve_left
          (by simp)) with hz1 | hz2
      · obtain ⟨⟨p, hq⟩, hget⟩ := List.mem_iff_get.mp hz1
        rw [← hget]
        exact (hrowO p hq).1
      · obtain ⟨l, hl, hkl⟩ := List.mem_flatten.mp hz2
        obtain ⟨⟨q, hr⟩, hget⟩ := List.mem_iff_get.mp hl
        have hq2 : q < (inner.getD []).length := by
          rw [← hlI]
          exact hr
        rw [← hget] at hkl
        obtain ⟨⟨p, hpr⟩, hget2⟩ := List.mem_iff_get.mp hkl
        rw [← hget2]
        exact (hrowI q hr hq2 p hpr).1
    have hsorted2 : List.Pairwise (fun a b =>
        keyLt a.key b.key) instrs := hsorted
    refine List.Pairwise.imp_of_mem ?_ hsorted2
    intro a b ha hb hk
    have h1 := hslots a ha
    have h2 := hslots b hb
    simp only [Instruction.key, keyLt] at hk
    rw [h1, h2] at hk
    omega
  · intro i hi
    have hq : i < rowsO.length := by
      rw [hlO]
      exact hi
    obtain ⟨hs, ht, hidx, hraw⟩ := hrowO i hq
    refine ⟨rowsO.get ⟨i, hq⟩, ?_, ht, hidx, hraw⟩
    exact (hmem _).mpr (Or.inr (List.mem_append.mpr
      (Or.inl (List.get_mem _ _ _))))
  · intro grp hgrp j hj
    obtain ⟨⟨q, hq⟩, hget⟩ := List.mem_iff_get.mp hgrp
    have hr : q < rowss.length := by
      rw [hlI]
      exact hq
    obtain ⟨hlenq, -⟩ := hIok q hq hr
    have hpr : j < (rowss.get ⟨q, hr⟩).length := by
      rw [hlenq, hget]
      exact hj
    obtain ⟨hs, ht, hidx, hraw⟩ := hrowI q hr hq j hpr
    refine ⟨(rowss.get ⟨q, hr⟩).get ⟨j, hpr⟩, ?_, ?_, hidx, ?_⟩
    · exact (hmem _).mpr (Or.inr (List.mem_append.mpr (Or.inr
        (List.mem_flatten.mpr ⟨rowss.get ⟨q, hr⟩, List.get_mem _ _ _,
          List.get_mem _ _ _⟩))))
    · rw [ht, hget]
    · rw [hraw, hget]

/-- C1: for a JSON-form transaction that parses successfully, with at most
256 outer instructions, pairwise-distinct inner-group indices below 256 and
at most 255 instructions per inner group, `parse_transactions` emits
exactly N + Σ Mᵢ instruction rows whose `get_raw_instruction_idx` values
are strictly increasing, with an outer-row of raw index `i·256` for every
outer position i and an inner-row of raw index `g.index·256 + j + 1` for
every inner instruction j of every group g. -/
theorem c1_row_count_and_raw_indices
    {d : Decoders} {slot : Nat} {sigs keys : List String}
    {outers : List UiCompiledInstruction}
    {meta : Option UiTransactionStatusMeta} {btime : Option Int}
    {instrs : List Instruction} {bals : List Balance}
    {args : List InstructionArgument}
    (h : parse_transactions d
      ⟨slot, ⟨.json sigs (.raw ⟨keys, outers⟩), meta⟩, btime⟩ =
      some (.ok (instrs, bals, args)))
    (hN : outers.length ≤ 256)
    (hgn : (((meta.bind fun m => m.inner_instructions).getD []).map
      (fun g => g.index)).Nodup)
    (hglt : ∀ grp ∈ (meta.bind fun m => m.inner_instructions).getD [],
      grp.index < 256)
    (hM : ∀ grp ∈ (meta.bind fun m => m.inner_instructions).getD [],
      grp.instructions.length ≤ 255) :
    instrs.length = outers.length +
      (((meta.bind fun m => m.inner_instructions).getD []).map
        (fun g => g.instructions.length)).sum ∧
    (instrs.map Instruction.get_raw_instruction_idx).Pairwise (· < ·) ∧
    (∀ i < outers.length, ∃ r ∈ instrs,
      r.transaction_instruction_idx = none ∧ r.instruction_idx = i ∧
      r.get_raw_instruction_idx = i * 256) ∧
    (∀ grp ∈ (meta.bind fun m => m.inner_instructions).getD [],
      ∀ j < grp.instructions.length, ∃ r ∈ instrs,
        r.transaction_instruction_idx = some grp.index ∧
        r.instruction_idx = j ∧
        r.get_raw_instruction_idx = grp.index * 256 + j + 1) := by
  obtain ⟨s0, accountsUsed, status, hsig, happ⟩ := parse_ok_extract h
  exact append_rows_c1 happ hN hgn hglt hM

set_option maxRecDepth 100000 in
/-- Witness for C1's theorem at the concrete transaction `txC1`
(2 outer instructions, inner groups of sizes 2 and 1 under indices 0
and 1). -/
theorem c1_row_count_and_raw_indices_witness :
    ∃ instrs, (∃ bals args, parse_transactions decZero txC1 =
        some (.ok (instrs, bals, args))) ∧
      instrs.length = 5 ∧
      (instrs.map Instruction.get_raw_instruction_idx).Pairwise (· < ·) ∧
      (∃ r ∈ instrs, r.transaction_instruction_idx = none ∧
        r.instruction_idx = 1 ∧ r.get_raw_instruction_idx = 256) ∧
      (∃ r ∈ instrs, r.transaction_instruction_idx = some 1 ∧
        r.instruction_idx = 0 ∧ r.get_raw_instruction_idx = 257) := by
  have hcount : instrCountOf (parse_transactions decZero txC1) = some 5 :=
    by decide
  cases hres : parse_transactions decZero txC1 with
  | none =>
    rw [hres] at hcount
    simp [instrCountOf] at hcount
  | some r =>
    cases r with
    | error e =>
      rw [hres] at hcount
      simp [instrCountOf] at hcount
    | ok t =>
      obtain ⟨instrs, bals, args⟩ := t
      have h := c1_row_count_and_raw_indices hres (by decide) (by decide)
        (by decide) (by decide)
      refine ⟨instrs, ⟨bals, args, rfl⟩, ?_, h.2.1, ?_, ?_⟩
      · simpa using h.1
      · simpa using h.2.2.1 1 (by decide)
      · simpa using h.2.2.2 ⟨1, [UiInstruction.compiled ⟨0, [], ""⟩]⟩
          (by decide) 0 (by decide)

end SolanaIndexer
